import Mathlib

/-!
# Marketplace server (`index.js`): users, listings and reviews mirrored to JSON files

A shallow embedding of the routes of `index.js` that change or read the
collections.  The three global arrays `users`, `listings`, `reviews` are the
state; a route is a function from the state, the request and the outcome of the
outside calls it makes (clock, `bcrypt`, `fs`) to the new state, the response,
and the list of file-system calls made while the request was served, those of
the upload middleware of `/add-listing` included.  `/signup` is split at its
`await`: `Server.turn` and `serve` run the turns of the event loop, so that
other requests can be served while a signup waits for its hash.

The language runtime is embedded as far as the handlers use it:
`Number.parseInt`, `Number.parseFloat` (ECMAScript prefix scanning, with the
result rounded to an IEEE-754 double), `JSON.stringify` and `JSON.parse`
(on the abstract syntax of the JSON text).
-/

namespace Marketplace

/-! ## Numbers -/

/-- A JavaScript Number: `NaN`, the two infinities, or a finite double given by
its exact rational value.  The two zeros are identified, as `===` does. -/
inductive JSNumber where
  | nan
  | infinity (negative : Bool)
  | finite (value : ℚ)
  deriving DecidableEq

namespace JSNumber

/-- Unary minus on Numbers. -/
def neg : JSNumber → JSNumber
  | nan => nan
  | infinity s => infinity (!s)
  | finite q => finite (-q)

/-- Whether the Number is neither `NaN` nor an infinity. -/
def isFinite : JSNumber → Bool
  | finite _ => true
  | _ => false

end JSNumber

/-- Round a non-negative rational to the nearest integer, ties to even. -/
def roundHalfEven (q : ℚ) : ℤ :=
  let f := ⌊q⌋
  let r := q - f
  if r < 1 / 2 then f
  else if 1 / 2 < r then f + 1
  else if f % 2 = 0 then f else f + 1

/-- Number of halvings that bring `n` below `2`, at most `fuel` of them. -/
def halvings : ℕ → ℕ → ℕ
  | 0, _ => 0
  | fuel + 1, n => if n < 2 then 0 else halvings fuel (n / 2) + 1

/-- The position of the leading bit of `n`: `2 ^ bitLog2 n ≤ n < 2 ^ (bitLog2 n + 1)`
for positive `n`. -/
def bitLog2 (n : ℕ) : ℕ := halvings n n

/-- The integer `k` with `2 ^ k ≤ q < 2 ^ (k + 1)`, for positive `q`. -/
def floorLog2 (q : ℚ) : ℤ :=
  let k : ℤ := (bitLog2 q.num.natAbs : ℤ) - (bitLog2 q.den : ℤ)
  if (2 : ℚ) ^ k ≤ q then k else k - 1

/-- IEEE-754 binary64 round-to-nearest-even of a positive real: 53 significant
bits, least exponent `-1074`, overflow to `Infinity` from `2 ^ 1024`. -/
def binary64Pos (q : ℚ) : JSNumber :=
  let e : ℤ := max (floorLog2 q - 52) (-1074)
  let v : ℚ := (roundHalfEven (q / (2 : ℚ) ^ e) : ℚ) * (2 : ℚ) ^ e
  if (2 : ℚ) ^ (1024 : ℤ) ≤ v then JSNumber.infinity false else JSNumber.finite v

/-- The Number value of a mathematical value: IEEE-754 binary64
round-to-nearest-even. -/
def binary64 (q : ℚ) : JSNumber :=
  if q = 0 then JSNumber.finite 0
  else if 0 < q then binary64Pos q
  else (binary64Pos (-q)).neg

/-! ## `Number.parseInt` and `Number.parseFloat` -/

/-- The characters removed by `TrimString`: ECMAScript WhiteSpace and
LineTerminator code points. -/
def isStrWhiteSpaceChar (c : Char) : Bool :=
  let n := c.toNat
  n = 0x09 || n = 0x0A || n = 0x0B || n = 0x0C || n = 0x0D || n = 0x20 || n = 0xA0
    || n = 0x1680 || (0x2000 ≤ n && n ≤ 0x200A) || n = 0x2028 || n = 0x2029
    || n = 0x202F || n = 0x205F || n = 0x3000 || n = 0xFEFF

/-- Value of a digit character in a radix up to 16, if it is one. -/
def digitValue (radix : ℕ) (c : Char) : Option ℕ :=
  let n := c.toNat
  let v : Option ℕ :=
    if 48 ≤ n ∧ n ≤ 57 then some (n - 48)
    else if 97 ≤ n ∧ n ≤ 102 then some (n - 87)
    else if 65 ≤ n ∧ n ≤ 70 then some (n - 55)
    else none
  v.filter (fun d => decide (d < radix))

/-- Split off the longest run of radix digits at the head of the text:
the digit values, most significant first, and the rest. -/
def spanDigits (radix : ℕ) : List Char → List ℕ × List Char
  | [] => ([], [])
  | c :: cs =>
    match digitValue radix c with
    | some d => let r := spanDigits radix cs; (d :: r.1, r.2)
    | none => ([], c :: cs)

/-- Mathematical value of a digit sequence, most significant digit first. -/
def digitsValue (radix : ℕ) (ds : List ℕ) : ℕ :=
  ds.foldl (fun acc d => acc * radix + d) 0

/-- Strip a leading sign: whether it was `-`, and the rest. -/
def splitSign : List Char → Bool × List Char
  | c :: cs =>
    if c = '-' then (true, cs)
    else if c = '+' then (false, cs)
    else (false, c :: cs)
  | [] => (false, [])

/-- Apply a sign to a Number. -/
def withSign (negative : Bool) (n : JSNumber) : JSNumber :=
  if negative then n.neg else n

/-- The radix of `parseInt` with no radix argument: 16 after a lead `0x` or
`0X`, which is removed, and 10 otherwise. -/
def radixLead : List Char → ℕ × List Char
  | c₁ :: c₂ :: r =>
    if c₁ = '0' ∧ (c₂ = 'x' ∨ c₂ = 'X') then (16, r) else (10, c₁ :: c₂ :: r)
  | t => (10, t)

/-- `Number.parseInt(string)` with no radix argument: leading white space is
skipped, a sign is read, a `0x`/`0X` lead switches to radix 16, the longest run
of digits is converted; no digit gives `NaN`. -/
def parseInt (s : String) : JSNumber :=
  let signed := splitSign (s.data.dropWhile isStrWhiteSpaceChar)
  let lead := radixLead signed.2
  let ds := (spanDigits lead.1 lead.2).1
  if ds = [] then JSNumber.nan
  else withSign signed.1 (binary64 (digitsValue lead.1 ds))

/-- The exponent part `e`/`E`, optional sign, digits; an absent or malformed
exponent part is not consumed and counts as exponent zero. -/
def parseExponent : List Char → ℤ
  | c :: cs =>
    if c = 'e' ∨ c = 'E' then
      let signed := splitSign cs
      let ds := (spanDigits 10 signed.2).1
      if ds = [] then 0
      else if signed.1 then -(digitsValue 10 ds : ℤ) else (digitsValue 10 ds : ℤ)
    else 0
  | [] => 0

/-- The fraction digits after the integer digits, and the rest: the digits that
follow a `.`, if there is one.  (A `.` with no digit on either side leaves no
digit at all, which `parseFloat` answers with `NaN`.) -/
def spanFraction : List Char → List ℕ × List Char
  | c :: r => if c = '.' then spanDigits 10 r else ([], c :: r)
  | [] => ([], [])

/-- `Number.parseFloat(string)`: leading white space is skipped and the longest
head of the text that is a `StrDecimalLiteral` is converted; none gives `NaN`. -/
def parseFloat (s : String) : JSNumber :=
  let signed := splitSign (s.data.dropWhile isStrWhiteSpaceChar)
  if "Infinity".data.isPrefixOf signed.2 then JSNumber.infinity signed.1
  else
    let whole := spanDigits 10 signed.2
    let fraction := spanFraction whole.2
    if whole.1 = [] ∧ fraction.1 = [] then JSNumber.nan
    else
      let mantissa : ℚ :=
        (digitsValue 10 whole.1 : ℚ) + (digitsValue 10 fraction.1 : ℚ) / (10 : ℚ) ^ fraction.1.length
      withSign signed.1 (binary64 (mantissa * (10 : ℚ) ^ parseExponent fraction.2))

/-- `ToString` applied to a body field before parsing: an absent field is the
text `undefined`. -/
def fieldToString : Option String → String
  | some s => s
  | none => "undefined"

/-! ## Values and `JSON` -/

/-- The JavaScript values the collections are made of. -/
inductive JSValue where
  | undefined
  | null
  | bool (b : Bool)
  | number (n : JSNumber)
  | string (s : String)
  | array (items : List JSValue)
  | object (properties : List (String × JSValue))

/-- The content of a JSON file: the abstract syntax of its text.  Formatting
(the two-space indentation asked for by `JSON.stringify(_, null, 2)`), string
quoting and the decimal rendering of a finite double are the runtime's and are
read back unchanged by `JSON.parse`; a number token stands for the double it
denotes. -/
inductive Json where
  | null
  | bool (b : Bool)
  | number (value : ℚ)
  | string (s : String)
  | array (items : List Json)
  | object (members : List (String × Json))

namespace JSON

mutual
/-- `JSON.stringify(value, null, 2)`: `undefined` has no serialisation, a
non-finite Number is written `null`. -/
def stringify : JSValue → Option Json
  | .undefined => none
  | .null => some .null
  | .bool b => some (.bool b)
  | .number (.finite q) => some (.number q)
  | .number _ => some .null
  | .string s => some (.string s)
  | .array items => some (.array (stringifyElements items))
  | .object properties => some (.object (stringifyProperties properties))
/-- Array elements: an element with no serialisation is written `null`. -/
def stringifyElements : List JSValue → List Json
  | [] => []
  | v :: vs =>
    (match stringify v with
      | some j => j
      | none => .null) :: stringifyElements vs
/-- Object properties, in order: a property whose value has no serialisation is
left out. -/
def stringifyProperties : List (String × JSValue) → List (String × Json)
  | [] => []
  | (k, v) :: ps =>
    match stringify v with
    | some j => (k, j) :: stringifyProperties ps
    | none => stringifyProperties ps
end

mutual
/-- `JSON.parse(text)` on a well-formed text. -/
def parse : Json → JSValue
  | .null => .null
  | .bool b => .bool b
  | .number q => .number (.finite q)
  | .string s => .string s
  | .array items => .array (parseElements items)
  | .object members => .object (parseMembers members)
/-- The elements of a parsed array. -/
def parseElements : List Json → List JSValue
  | [] => []
  | j :: js => parse j :: parseElements js
/-- The properties of a parsed object. -/
def parseMembers : List (String × Json) → List (String × JSValue)
  | [] => []
  | (k, j) :: ms => (k, parse j) :: parseMembers ms
end

end JSON

/-- Look a key up in a property list; a later entry for the same key wins. -/
def lookupProperty (k : String) : List (String × JSValue) → JSValue
  | [] => .undefined
  | (k', v) :: ps =>
    if ps.any (fun p => p.1 == k) then lookupProperty k ps
    else if k' = k then v else .undefined

/-- Property read `value.key`; reading from a value with no such property
gives `undefined`. -/
def JSValue.get (v : JSValue) (k : String) : JSValue :=
  match v with
  | .object ps => lookupProperty k ps
  | _ => .undefined

/-- Nested property read `value.k1.k2...`. -/
def JSValue.readPath (v : JSValue) : List String → JSValue
  | [] => v
  | k :: ks => (v.get k).readPath ks

/-! ## Records -/

/-- A body field as the handlers see it: a text, or absent (`undefined`). -/
abbrev Field := Option String

/-- JavaScript truthiness of a body field: present and not the empty text. -/
def truthy : Field → Bool
  | some s => s != ""
  | none => false

/-- A body field as a value. -/
def Field.toJS : Field → JSValue
  | some s => .string s
  | none => .undefined

/-- A record of `users`. -/
structure User where
  name : String
  password : String
  deriving DecidableEq

/-- A record of `reviews`. -/
structure Review where
  name : Field
  comment : Field
  rating : JSNumber
  deriving DecidableEq

/-- The `seller` object of a listing. -/
structure Seller where
  name : Field
  email : Field
  phone : Field
  address : Field
  city : Field
  state : Field
  pincode : Field
  deriving DecidableEq

/-- A record of `listings`; `originalPrice` is a Number or `null`. -/
structure Listing where
  _id : String
  seller : Seller
  name : Field
  brand : Field
  price : JSNumber
  originalPrice : Option JSNumber
  size : Field
  condition : Field
  description : Field
  imageUrl : String
  isNew : Bool
  rating : JSNumber
  reviewCount : JSNumber
  createdAt : String
  deriving DecidableEq

/-- The object `{ name, password }`. -/
def User.toJS (u : User) : JSValue :=
  .object [("name", .string u.name), ("password", .string u.password)]

/-- The object `{ name, comment, rating }`. -/
def Review.toJS (r : Review) : JSValue :=
  .object [("name", r.name.toJS), ("comment", r.comment.toJS), ("rating", .number r.rating)]

/-- The `seller` object literal of `/add-listing`. -/
def Seller.toJS (s : Seller) : JSValue :=
  .object [("name", s.name.toJS), ("email", s.email.toJS), ("phone", s.phone.toJS),
    ("address", s.address.toJS), ("city", s.city.toJS), ("state", s.state.toJS),
    ("pincode", s.pincode.toJS)]

/-- The `newListing` object literal of `/add-listing`. -/
def Listing.toJS (l : Listing) : JSValue :=
  .object [("_id", .string l._id), ("seller", l.seller.toJS), ("name", l.name.toJS),
    ("brand", l.brand.toJS), ("price", .number l.price),
    ("originalPrice", match l.originalPrice with
      | some n => .number n
      | none => .null),
    ("size", l.size.toJS), ("condition", l.condition.toJS),
    ("description", l.description.toJS), ("imageUrl", .string l.imageUrl),
    ("isNew", .bool l.isNew), ("rating", .number l.rating),
    ("reviewCount", .number l.reviewCount), ("createdAt", .string l.createdAt)]

/-! ## State, requests, responses -/

/-- The three global arrays of `index.js`. -/
structure AppState where
  users : List User
  listings : List Listing
  reviews : List Review
  deriving DecidableEq

/-- An HTTP response: `res.status(code).send(body)`, `res.redirect(location)`,
or the error page (status 500) of the framework for an error raised in a
middleware. -/
inductive Response where
  | send (status : ℕ) (body : String)
  | redirect (location : String)
  | failed (error : String)
  deriving DecidableEq

/-- A file-system call made while a request is served: by a handler,
`fs.writeFile(path, data, ...)` with the result of `JSON.stringify` as data and
`fs.unlinkSync(path)`; by the upload middleware, `fs.mkdirSync(path)`, the
storing of the uploaded file, and its removal when the upload is aborted. -/
inductive FsCall where
  | writeFile (path : String) (data : Option Json)
  | unlinkSync (path : String)
  | mkdirSync (path : String)
  | storeUpload (path : String)
  | removeUpload (path : String)

/-- What serving a request needs from outside the process: the clock as read by
the handler (`Date.now()`, `new Date().toISOString()`) and by the upload
middleware, `Math.round(Math.random() * 1e9)`, the `bcrypt` calls (`none` when
the call throws), the error passed to the `fs.writeFile` callback (`none` when
the write succeeds), `fs.existsSync`, and the error thrown by `fs.unlinkSync`
(`none` when the file is removed).  What `bcrypt.hash(password, 10)` resolves
to is a text of 60 characters (version, cost, salt and digest). -/
structure Outside where
  now : ℕ
  isoNow : String
  uploadNow : ℕ
  random : ℕ
  hash : String → Option String
  hashLength : ∀ password hashed, hash password = some hashed → hashed.length = 60
  compare : String → String → Option Bool
  writeError : Option String
  existsSync : String → Bool
  unlinkError : String → Option String

/-- The result of handling one request. -/
structure Outcome where
  state : AppState
  response : Response
  calls : List FsCall

def reviewFilePath : String := "review.json"
def dataFilePath : String := "data.json"
def listingsFilePath : String := "listings.json"

/-- The image reference of a listing submitted without an upload. -/
def placeholderUrl : String := "/placeholder.svg?height=200&width=200"

/-- `text.includes(part)`. -/
def includes (text part : String) : Bool :=
  text.data.tails.any (fun t => part.data.isPrefixOf t)

/-- `path.join(__dirname, "public", imageUrl)`, relative to `__dirname`, for a
reference of the form `/uploads/<file>` as `/add-listing` builds it. -/
def publicPath (imageUrl : String) : String := "public" ++ imageUrl

/-! ## Route handlers -/

/-- The body of `POST /signup` and `POST /login`. -/
structure CredentialsBody where
  username : Field
  password : Field

/-- The body of `POST /delete-user`. -/
structure DeleteUserBody where
  username : Field

/-- The body of `POST /delete-listing`. -/
structure DeleteListingBody where
  listingId : Field

/-- The body of `POST /submit-review`. -/
structure ReviewBody where
  name : Field
  comment : Field
  rating : Field

/-- The body of `POST /add-listing`. -/
structure ListingBody where
  sellerName : Field
  sellerEmail : Field
  sellerPhone : Field
  sellerAddress : Field
  sellerCity : Field
  sellerState : Field
  sellerPincode : Field
  productName : Field
  productBrand : Field
  productPrice : Field
  productOriginalPrice : Field
  productSize : Field
  productCondition : Field
  productDescription : Field

/-- The upload stored by `upload.single("productImage")`, as `req.file`. -/
structure UploadedFile where
  filename : String

/-- The file part `productImage` of a multipart body: the extension of its
original name (`path.extname(file.originalname)`), its MIME type, its size in
bytes. -/
structure Upload where
  extension : String
  mimetype : String
  size : ℕ

/-- The directory of the uploads, `path.join(__dirname, "public/uploads")`,
relative to `__dirname`. -/
def uploadDir : String := "public/uploads"

/-- `fileFilter`: only MIME types that start with `image/` are accepted. -/
def fileFilter (file : Upload) : Bool := "image/".data.isPrefixOf file.mimetype.data

/-- The `filename` callback of the disk storage. -/
def uploadFilename (file : Upload) (out : Outside) : String :=
  "productImage" ++ "-" ++ (toString out.uploadNow ++ "-" ++ toString out.random) ++ file.extension

/-- The `fileSize` limit of the upload. -/
def fileSizeLimit : ℕ := 5 * 1024 * 1024

/-- `upload.single("productImage")`: the file-system calls it makes, and either
`req.file` for the handler or the error that ends the request.  A part the
filter refuses is not stored; an accepted part is stored under `uploadDir`,
which is created when missing, and removed again when it exceeds the size
limit. -/
def uploadSingle (part : Option Upload) (out : Outside) :
    List FsCall × Except Response (Option UploadedFile) :=
  match part with
  | none => ([], .ok none)
  | some file =>
    if !fileFilter file then ([], .error (.failed "Not an image! Please upload only images."))
    else
      let mkdir := if out.existsSync uploadDir then [] else [FsCall.mkdirSync uploadDir]
      let filename := uploadFilename file out
      let stored := uploadDir ++ "/" ++ filename
      if fileSizeLimit < file.size then
        (mkdir ++ [.storeUpload stored, .removeUpload stored], .error (.failed "File too large"))
      else (mkdir ++ [.storeUpload stored], .ok (some { filename := filename }))

/-- The response of the `fs.writeFile` callback of a handler. -/
def afterWrite (writeError : Option String) (failure : String → Response) (success : Response) :
    Response :=
  match writeError with
  | some message => failure message
  | none => success

/-- `POST /signup` up to the `await`: the required-field check and the
`users.find` scan.  It answers at once, or yields the username and the password
to hash. -/
def signupCheck (users : List User) (body : CredentialsBody) : Except Response (String × String) :=
  match body.username, body.password with
  | some username, some password =>
    if username = "" ∨ password = "" then
      .error (.send 400 "Error: Username and password are required.")
    else
      match users.find? (fun user => user.name == username) with
      | some _ =>
        .error (.send 400 "Error: User already exists. Please choose a different username.")
      | none => .ok (username, password)
  | _, _ => .error (.send 400 "Error: Username and password are required.")

/-- `POST /signup` from the point where `bcrypt.hash` has settled: `users.push`,
then `fs.writeFile`; a rejected hash answers 500 and changes nothing. -/
def signupStore (st : AppState) (username : String) (hashed : Option String)
    (writeError : Option String) : Outcome :=
  match hashed with
  | some hashedPassword =>
    let newUser : User := { name := username, password := hashedPassword }
    let users := st.users ++ [newUser]
    { state := { st with users := users }
      response := afterWrite writeError
        (fun message => .send 500 ("Error: Could not save user data to file. Details: " ++ message))
        (.redirect "/login")
      calls := [.writeFile dataFilePath (JSON.stringify (.array (users.map User.toJS)))] }
  | none =>
    { state := st, response := .send 500 "Error: Could not hash password.", calls := [] }

/-- `POST /signup`, handled with no other request served during the `await`. -/
def signup (st : AppState) (body : CredentialsBody) (out : Outside) : Outcome :=
  match signupCheck st.users body with
  | .error response => { state := st, response := response, calls := [] }
  | .ok (username, password) => signupStore st username (out.hash password) out.writeError

/-- `POST /login`. -/
def login (st : AppState) (body : CredentialsBody) (out : Outside) : Outcome :=
  match body.username, body.password with
  | some username, some password =>
    if username = "" ∨ password = "" then
      { state := st, response := .send 400 "Error: Username and password are required.", calls := [] }
    else
      match st.users.find? (fun user => user.name == username) with
      | none =>
        { state := st, response := .send 400 "Error: User not found. Please check your username.",
          calls := [] }
      | some user =>
        match out.compare password user.password with
        | some true => { state := st, response := .redirect "/", calls := [] }
        | some false => { state := st, response := .send 400 "Error: Incorrect password.", calls := [] }
        | none =>
          { state := st, response := .send 500 "Error: Login failed due to an internal error.",
            calls := [] }
  | _, _ =>
    { state := st, response := .send 400 "Error: Username and password are required.", calls := [] }

/-- `POST /delete-user`. -/
def deleteUser (st : AppState) (body : DeleteUserBody) (out : Outside) : Outcome :=
  let users := st.users.filter (fun user => some user.name != body.username)
  { state := { st with users := users }
    response := afterWrite out.writeError (fun _ => .send 500 "Error deleting user.")
      (.redirect "/admin")
    calls := [.writeFile dataFilePath (JSON.stringify (.array (users.map User.toJS)))] }

/-- `POST /submit-review`. -/
def submitReview (st : AppState) (body : ReviewBody) (out : Outside) : Outcome :=
  if truthy body.name && truthy body.comment && truthy body.rating then
    let newReview : Review :=
      { name := body.name
        comment := body.comment
        rating := parseInt (fieldToString body.rating) }
    let reviews := st.reviews ++ [newReview]
    { state := { st with reviews := reviews }
      response := afterWrite out.writeError (fun _ => .send 500 "Error saving review.")
        (.redirect "/")
      calls := [.writeFile reviewFilePath (JSON.stringify (.array (reviews.map Review.toJS)))] }
  else
    { state := st, response := .send 400 "All fields are required.", calls := [] }

/-- The handler of `POST /add-listing`, run after `upload.single("productImage")`
has set `req.file`. -/
def addListingHandler (st : AppState) (body : ListingBody) (file : Option UploadedFile)
    (out : Outside) : Outcome :=
  if !truthy body.sellerName || !truthy body.sellerEmail || !truthy body.sellerPhone
      || !truthy body.productName || !truthy body.productPrice then
    { state := st, response := .send 400 "All required fields must be filled.", calls := [] }
  else
    let newListing : Listing :=
      { _id := toString out.now
        seller :=
          { name := body.sellerName
            email := body.sellerEmail
            phone := body.sellerPhone
            address := body.sellerAddress
            city := body.sellerCity
            state := body.sellerState
            pincode := body.sellerPincode }
        name := body.productName
        brand := body.productBrand
        price := parseFloat (fieldToString body.productPrice)
        originalPrice :=
          if truthy body.productOriginalPrice then
            some (parseFloat (fieldToString body.productOriginalPrice))
          else none
        size := body.productSize
        condition := body.productCondition
        description := body.productDescription
        imageUrl :=
          match file with
          | some f => "/uploads/" ++ f.filename
          | none => placeholderUrl
        isNew := true
        rating := .finite 0
        reviewCount := .finite 0
        createdAt := out.isoNow }
    let listings := st.listings ++ [newListing]
    { state := { st with listings := listings }
      response := afterWrite out.writeError (fun _ => .send 500 "Error saving listing.")
        (.redirect "/seller")
      calls := [.writeFile listingsFilePath (JSON.stringify (.array (listings.map Listing.toJS)))] }

/-- `POST /add-listing`: the upload middleware, then the handler. -/
def addListing (st : AppState) (body : ListingBody) (part : Option Upload) (out : Outside) :
    Outcome :=
  match (uploadSingle part out).2 with
  | .error response => { state := st, response := response, calls := (uploadSingle part out).1 }
  | .ok file =>
    { state := (addListingHandler st body file out).state
      response := (addListingHandler st body file out).response
      calls := (uploadSingle part out).1 ++ (addListingHandler st body file out).calls }

/-- The path that `/delete-listing` passes to `fs.unlinkSync`, if it calls it:
the first listing with the id has a non-empty image reference that does not
mention the placeholder and whose file exists. -/
def imageToRemove (listings : List Listing) (listingId : Field) (out : Outside) : Option String :=
  match listings.find? (fun listing => some listing._id == listingId) with
  | some listingToDelete =>
    if listingToDelete.imageUrl != "" && !includes listingToDelete.imageUrl "placeholder" then
      let imagePath := publicPath listingToDelete.imageUrl
      if out.existsSync imagePath then some imagePath else none
    else none
  | none => none

/-- `POST /delete-listing` from `listings.filter` on: the filter, then the
write of the listings file. -/
def deleteListingStore (st : AppState) (listingId : Field) (out : Outside) (calls : List FsCall) :
    Outcome :=
  let listings := st.listings.filter (fun listing => some listing._id != listingId)
  { state := { st with listings := listings }
    response := afterWrite out.writeError (fun _ => .send 500 "Error deleting listing.")
      (.redirect "/seller")
    calls := calls ++
      [.writeFile listingsFilePath (JSON.stringify (.array (listings.map Listing.toJS)))] }

/-- `POST /delete-listing`.  `fs.unlinkSync` is called outside any `try`: when it
throws, the handler ends there, before the filter and the write, and the
framework answers with its error page. -/
def deleteListing (st : AppState) (body : DeleteListingBody) (out : Outside) : Outcome :=
  if !truthy body.listingId then
    { state := st, response := .send 400 "Listing ID is required.", calls := [] }
  else
    match imageToRemove st.listings body.listingId out with
    | some imagePath =>
      match out.unlinkError imagePath with
      | some message => { state := st, response := .failed message, calls := [.unlinkSync imagePath] }
      | none => deleteListingStore st body.listingId out [.unlinkSync imagePath]
    | none => deleteListingStore st body.listingId out []

/-- The server between two turns of the event loop: the collections, and the
signups that passed their check and wait for `bcrypt.hash` to settle, each with
its username and password. -/
structure Server where
  app : AppState
  waiting : List (String × String)

/-- A turn of the event loop that touches the users collection: a
`POST /signup` arrives and runs up to its `await`; the hash of the waiting
signup at the given position settles and the signup runs to its end; a
`POST /delete-user` is handled. -/
inductive Turn where
  | signupArrives (body : CredentialsBody)
  | hashSettles (position : ℕ) (out : Outside)
  | deleteUser (body : DeleteUserBody) (out : Outside)

/-- One turn: the server after it and the response sent in it, if one is. -/
def Server.turn (s : Server) : Turn → Server × Option Response
  | .signupArrives body =>
    match signupCheck s.app.users body with
    | .error response => (s, some response)
    | .ok waitingSignup => ({ s with waiting := s.waiting ++ [waitingSignup] }, none)
  | .hashSettles position out =>
    match s.waiting.get? position with
    | some (username, password) =>
      let outcome := signupStore s.app username (out.hash password) out.writeError
      ({ app := outcome.state, waiting := s.waiting.eraseIdx position }, some outcome.response)
    | none => (s, none)
  | .deleteUser body out =>
    ({ s with app := (Marketplace.deleteUser s.app body out).state },
      some (Marketplace.deleteUser s.app body out).response)

/-- The turns of the event loop in order: the server at the end and the
responses sent, oldest first. -/
def serve (s : Server) : List Turn → Server × List Response
  | [] => (s, [])
  | turn :: turns =>
    let next := s.turn turn
    let rest := serve next.1 turns
    (rest.1, next.2.toList ++ rest.2)

/-- A request on the users collection. -/
inductive UserRequest where
  | signup (body : CredentialsBody) (out : Outside)
  | deleteUser (body : DeleteUserBody) (out : Outside)

/-- The turns of requests handled one at a time: the hash of a signup settles
in the turn after its arrival, before the next request is looked at. -/
def oneAtATime : List UserRequest → List Turn
  | [] => []
  | .signup body out :: requests =>
    .signupArrives body :: .hashSettles 0 out :: oneAtATime requests
  | .deleteUser body out :: requests => .deleteUser body out :: oneAtATime requests

/-! ## Notions used to state the properties -/

/-- The user is the first record of the collection with the given name. -/
def FirstNamed (users : List User) (username : String) (user : User) : Prop :=
  ∃ before after, users = before ++ user :: after ∧ user.name = username ∧
    ∀ u ∈ before, u.name ≠ username

/-- The answer of `/signup` to a taken username. -/
def userExistsResponse : Response :=
  .send 400 "Error: User already exists. Please choose a different username."

/-- A stand-in for a `bcrypt` hash of the password: 60 characters, the version
and cost in front. -/
def sampleHash (password : String) : String :=
  String.mk ("$2b$10$".data ++ (password.data ++ List.replicate 53 '.').take 53)

/-- An outside world in which every call succeeds: hashing gives `sampleHash`,
a password verifies against the marked text, writes and removals succeed, no
file exists. -/
def calmOutside : Outside :=
  { now := 1700000000000
    isoNow := "2023-11-14T22:13:20.000Z"
    uploadNow := 1699999999990
    random := 123456789
    hash := fun password => some (sampleHash password)
    hashLength := fun password hashed h => by
      cases h
      have h7 : "$2b$10$".data.length = 7 := rfl
      simp only [sampleHash, String.length, List.length_append, List.length_take,
        List.length_replicate, h7]
      omega
    compare := fun password hashed => some (decide (hashed = "$2b$10$" ++ password))
    writeError := none
    existsSync := fun _ => false
    unlinkError := fun _ => none }

/-- A state with one registered user. -/
def annState : AppState :=
  { users := [{ name := "ann", password := "$2b$10$secret" }], listings := [], reviews := [] }

/-- The empty state of a first start. -/
def emptyState : AppState := { users := [], listings := [], reviews := [] }

/-- The request is answered 400, no `fs` call is issued, and the state (users,
listings and reviews) is the one before the request. -/
def Rejected400 (st : AppState) (r : Outcome) : Prop :=
  (∃ text, r.response = .send 400 text) ∧ r.calls = [] ∧ r.state = st

/-- The answer of `/login` to an unknown username. -/
def userNotFoundResponse : Response :=
  .send 400 "Error: User not found. Please check your username."

/-- The answer of `/login` to a password that does not verify. -/
def incorrectPasswordResponse : Response :=
  .send 400 "Error: Incorrect password."

/-- An outside world whose `bcrypt.compare` is the given predicate. -/
def Outside.withVerify (out : Outside) (verify : String → String → Bool) : Outside :=
  { out with compare := fun password hashed => some (verify password hashed) }

/-- The names of the users, in order. -/
def userNames (st : AppState) : List String := st.users.map User.name

/-- The ids of the listings, in order. -/
def listingIds (st : AppState) : List String := st.listings.map Listing._id

/-- The body of the scenario: Ann lists a jacket for 25.50, no other field. -/
def jacketBody : ListingBody :=
  { sellerName := some "Ann", sellerEmail := some "a@x.com", sellerPhone := some "555"
    sellerAddress := none, sellerCity := none, sellerState := none, sellerPincode := none
    productName := some "Jacket", productBrand := none, productPrice := some "25.50"
    productOriginalPrice := none, productSize := none, productCondition := none
    productDescription := none }

/-- Two listings submitted within the same millisecond. -/
def twinListings : AppState :=
  (addListing (addListing emptyState jacketBody none calmOutside).state
    { jacketBody with productName := some "Scarf" } none calmOutside).state

/-- Two signups for the name `ann` that overlap: the second arrives while the
first waits for its hash, then both hashes settle. -/
def overlappingSignups : List Turn :=
  [.signupArrives ⟨some "ann", some "pw"⟩, .signupArrives ⟨some "ann", some "other"⟩,
    .hashSettles 0 calmOutside, .hashSettles 0 calmOutside]

/-- The character of a decimal digit. -/
def digitChar (d : ℕ) : Char := Char.ofNat (48 + d)

/-- The number a sequence of decimal digits denotes, most significant digit
first. -/
def decimalValue (digits : List ℕ) : ℕ := Nat.ofDigits 10 digits.reverse

/-- The text is a decimal integer literal denoting `n`: an optional minus sign
and one or more decimal digits, read in base ten. -/
def IsDecimalIntegerLiteral (text : String) (n : ℤ) : Prop :=
  ∃ (negative : Bool) (digits : List ℕ), digits ≠ [] ∧ (∀ d ∈ digits, d < 10) ∧
    text = String.mk ((if negative then ['-'] else []) ++ digits.map digitChar) ∧
    n = (if negative then -1 else 1) * (decimalValue digits : ℤ)

/-- The sign in front of a literal or of an exponent: none, `+` or `-`. -/
inductive SignMark where
  | absent
  | plus
  | minus

/-- The characters of a sign. -/
def SignMark.chars : SignMark → List Char
  | .absent => []
  | .plus => ['+']
  | .minus => ['-']

/-- The factor of a sign. -/
def SignMark.factor : SignMark → ℤ
  | .minus => -1
  | _ => 1

/-- The exponent part of a decimal literal: `e` or `E`, a sign, digits. -/
structure ExponentPart where
  upper : Bool
  sign : SignMark
  digits : List ℕ

/-- The characters of an exponent part, none when it is absent. -/
def exponentChars : Option ExponentPart → List Char
  | none => []
  | some e => (if e.upper then 'E' else 'e') :: (e.sign.chars ++ e.digits.map digitChar)

/-- The power of ten an exponent part denotes, zero when it is absent. -/
def exponentValue : Option ExponentPart → ℤ
  | none => 0
  | some e => e.sign.factor * (decimalValue e.digits : ℤ)

/-- The text is a decimal literal denoting `q`: an optional sign, one or more
decimal digits, optionally a point and one or more decimal digits, optionally
an exponent part (`e` or `E`, optional sign, one or more decimal digits). -/
def IsDecimalLiteral (text : String) (q : ℚ) : Prop :=
  ∃ (sign : SignMark) (whole fraction : List ℕ) (exponent : Option ExponentPart),
    whole ≠ [] ∧ (∀ d ∈ whole, d < 10) ∧ (∀ d ∈ fraction, d < 10) ∧
    (∀ e, exponent = some e → e.digits ≠ [] ∧ ∀ d ∈ e.digits, d < 10) ∧
    text = String.mk (sign.chars ++ (whole.map digitChar ++
      ((if fraction = [] then [] else '.' :: fraction.map digitChar) ++ exponentChars exponent))) ∧
    q = (sign.factor : ℚ) *
      (((decimalValue whole : ℚ) + (decimalValue fraction : ℚ) / (10 : ℚ) ^ fraction.length) *
        (10 : ℚ) ^ exponentValue exponent)

/-- The integer is the exact value of a finite double: a significand below
`2 ^ 53` times a power of two, the whole below `2 ^ 1024`. -/
def IsDouble (n : ℤ) : Prop :=
  ∃ m k : ℕ, n.natAbs = m * 2 ^ k ∧ m < 2 ^ 53 ∧ n.natAbs < 2 ^ 1024

/-- The rational is the exact value of a finite double: in lowest terms its
numerator is below `2 ^ 53` in absolute value and its denominator is a power of
two, at most `2 ^ 1074`. -/
def IsDoubleValue (q : ℚ) : Prop :=
  q.num.natAbs < 2 ^ 53 ∧ ∃ j : ℕ, j ≤ 1074 ∧ q.den = 2 ^ j

/-- The review of the scenario, with the given rating text. -/
def bobReview (rating : String) : ReviewBody :=
  { name := some "Bob", comment := some "Great", rating := some rating }

/-- What the startup load reads back from what a handler wrote:
`JSON.parse(JSON.stringify(value, null, 2))`. -/
def reload (value : JSValue) : JSValue :=
  match JSON.stringify value with
  | some text => JSON.parse text
  | none => .undefined

/-- The users collection as a value. -/
def usersValue (users : List User) : JSValue := .array (users.map User.toJS)

/-- The reviews collection as a value. -/
def reviewsValue (reviews : List Review) : JSValue := .array (reviews.map Review.toJS)

/-- The listings collection as a value. -/
def listingsValue (listings : List Listing) : JSValue := .array (listings.map Listing.toJS)

/-- The fields of a user record. -/
def userFields : List (List String) := [["name"], ["password"]]

/-- The fields of a review record. -/
def reviewFields : List (List String) := [["name"], ["comment"], ["rating"]]

/-- The fields of a listing record, those of its seller included. -/
def listingFields : List (List String) :=
  [["_id"], ["seller", "name"], ["seller", "email"], ["seller", "phone"], ["seller", "address"],
    ["seller", "city"], ["seller", "state"], ["seller", "pincode"], ["name"], ["brand"],
    ["price"], ["originalPrice"], ["size"], ["condition"], ["description"], ["imageUrl"],
    ["isNew"], ["rating"], ["reviewCount"], ["createdAt"]]

/-- Both values are sequences of the same length, and each record of the second
reads, field for field, the same as the record at its position in the first. -/
def SameRecords (fields : List (List String)) (original reloaded : JSValue) : Prop :=
  ∃ as bs, original = .array as ∧ reloaded = .array bs ∧
    List.Forall₂ (fun a b => ∀ path ∈ fields, b.readPath path = a.readPath path) as bs

/-- The numbers of the listing are finite doubles (`originalPrice` may be `null`). -/
def Listing.numbersFinite (l : Listing) : Bool :=
  l.price.isFinite && (match l.originalPrice with
    | some n => n.isFinite
    | none => true) && l.rating.isFinite && l.reviewCount.isFinite

/-- A listing submitted with a price that is not a number. -/
def pricelessListings : List Listing :=
  (addListing emptyState { jacketBody with productPrice := some "abc" } none calmOutside).state.listings

/-- A collection in which every kind of record occurs, optional fields absent. -/
def sampleState : AppState :=
  (submitReview (addListing annState jacketBody none calmOutside).state (bobReview "5")
    calmOutside).state

/-- Whether the call is an `fs.writeFile`. -/
def FsCall.isWriteFile : FsCall → Bool
  | .writeFile _ _ => true
  | _ => false

/-- The paths of the uploads that the calls store. -/
def storedUploads : List FsCall → List String
  | [] => []
  | .storeUpload path :: calls => path :: storedUploads calls
  | _ :: calls => storedUploads calls

/-- A small PNG attached as `productImage`. -/
def pngUpload : Upload := { extension := ".png", mimetype := "image/png", size := 20480 }

/-- The jacket listing with the seller name left out. -/
def incompleteBody : ListingBody := { jacketBody with sellerName := none }

/-- The rating text made of a `1` followed by 309 zeros. -/
def hugeRating : String := String.mk ('1' :: List.replicate 309 '0')

/-- An outside world where the uploaded files exist and removing one fails. -/
def stuckOutside : Outside :=
  { calmOutside with
    existsSync := fun _ => true
    unlinkError := fun _ => some "EPERM: operation not permitted, unlink" }

/-- An outside world in which every call fails: `bcrypt` throws and the write
reports an error. -/
def failingOutside : Outside :=
  { calmOutside with
    hash := fun _ => none
    hashLength := fun _ _ h => by cases h
    compare := fun _ _ => none
    writeError := some "EACCES: permission denied" }

/-- A text file attached as `productImage`. -/
def textUpload : Upload := { extension := ".txt", mimetype := "text/plain", size := 12 }

/-- A PNG of six megabytes attached as `productImage`. -/
def largeUpload : Upload := { extension := ".png", mimetype := "image/png", size := 6291456 }

/-- An outside world where the uploaded files exist and can be removed. -/
def tidyOutside : Outside := { calmOutside with existsSync := fun _ => true }

/-- One listing submitted with the PNG attached. -/
def pictureListing : AppState := (addListing emptyState jacketBody (some pngUpload) calmOutside).state

/-! ## Properties -/

theorem find_named_eq_some_iff (users : List User) (username : String) (user : User) :
    users.find? (fun u => u.name == username) = some user ↔ FirstNamed users username user := by
  rw [List.find?_eq_some]
  unfold FirstNamed
  constructor
  · rintro ⟨h, before, after, rfl, hb⟩
    exact ⟨before, after, rfl, by simpa using h, fun u hu => by simpa using hb u hu⟩
  · rintro ⟨before, after, rfl, h, hb⟩
    exact ⟨by simpa using h, before, after, rfl, fun u hu => by simpa using hb u hu⟩

theorem find_named_eq_none_iff (users : List User) (username : String) :
    users.find? (fun u => u.name == username) = none ↔ ∀ u ∈ users, u.name ≠ username := by
  simp

theorem signupCheck_of_exists (users : List User) (username password : String)
    (hu : username ≠ "") (hp : password ≠ "") (hex : ∃ user ∈ users, user.name = username) :
    signupCheck users ⟨some username, some password⟩ = .error userExistsResponse := by
  obtain ⟨user, hmem, hname⟩ := hex
  have hsome : (users.find? (fun u => u.name == username)).isSome := by
    rw [List.find?_isSome]
    exact ⟨user, hmem, by simpa using hname⟩
  obtain ⟨found, hfound⟩ := Option.isSome_iff_exists.mp hsome
  simp [signupCheck, hu, hp, hfound, userExistsResponse]

theorem signupCheck_of_fresh (users : List User) (username password : String)
    (hu : username ≠ "") (hp : password ≠ "") (hfresh : ∀ user ∈ users, user.name ≠ username) :
    signupCheck users ⟨some username, some password⟩ = .ok (username, password) := by
  have hnone := (find_named_eq_none_iff users username).mpr hfresh
  simp only [signupCheck, hu, hp, or_self, if_false, hnone]

theorem signup_redirect_stores (st : AppState) (username password : String) (out : Outside)
    (h : (signup st ⟨some username, some password⟩ out).response = .redirect "/login") :
    ∃ hashed, (signup st ⟨some username, some password⟩ out).state.users =
      st.users ++ [{ name := username, password := hashed }] := by
  unfold signup at h ⊢
  cases hc : signupCheck st.users ⟨some username, some password⟩ with
  | error r =>
    rw [hc] at h
    simp only [signupCheck] at hc
    split at hc
    · cases hc; simp at h
    · split at hc
      · cases hc; simp at h
      · cases hc
  | ok pr =>
    obtain ⟨u, p⟩ := pr
    have hu : u = username := by
      simp only [signupCheck] at hc
      split at hc
      · cases hc
      · split at hc
        · cases hc
        · cases hc; rfl
    subst hu
    rw [hc] at h
    simp only [signupStore] at h ⊢
    cases hh : out.hash p with
    | none => rw [hh] at h; simp at h
    | some hashed => exact ⟨hashed, rfl⟩

/-- C1. A `POST /signup` with non-empty username and password whose username is
the name of a user already in the collection is answered 400 "User already
exists", issues no file write and leaves the state (so the users collection,
with no hash stored) as it was; in particular this is the answer to a signup
that repeats the username of a signup just answered with the redirect to
`/login`. -/
theorem signup_existing_user_rejected (st : AppState) (username password : String)
    (out : Outside) (hu : username ≠ "") (hp : password ≠ "") :
    ((∃ user ∈ st.users, user.name = username) →
      (signup st ⟨some username, some password⟩ out).response = userExistsResponse ∧
      (signup st ⟨some username, some password⟩ out).calls = [] ∧
      (signup st ⟨some username, some password⟩ out).state = st) ∧
    (∀ (first : String) (out₀ : Outside),
      (signup st ⟨some username, some first⟩ out₀).response = .redirect "/login" →
      (signup (signup st ⟨some username, some first⟩ out₀).state
          ⟨some username, some password⟩ out).response = userExistsResponse ∧
      (signup (signup st ⟨some username, some first⟩ out₀).state
          ⟨some username, some password⟩ out).calls = [] ∧
      (signup (signup st ⟨some username, some first⟩ out₀).state
          ⟨some username, some password⟩ out).state =
        (signup st ⟨some username, some first⟩ out₀).state) := by
  have key : ∀ s : AppState, (∃ user ∈ s.users, user.name = username) →
      (signup s ⟨some username, some password⟩ out).response = userExistsResponse ∧
      (signup s ⟨some username, some password⟩ out).calls = [] ∧
      (signup s ⟨some username, some password⟩ out).state = s := by
    intro s hex
    simp [signup, signupCheck_of_exists s.users username password hu hp hex]
  refine ⟨key st, ?_⟩
  intro first out₀ hfirst
  obtain ⟨hashed, hstored⟩ := signup_redirect_stores st username first out₀ hfirst
  apply key
  rw [hstored]
  exact ⟨⟨username, hashed⟩, by simp, rfl⟩

theorem signup_existing_user_rejected_witness :
    (signup annState ⟨some "ann", some "pw"⟩ calmOutside).response = userExistsResponse ∧
    (signup annState ⟨some "ann", some "pw"⟩ calmOutside).calls = [] ∧
    (signup annState ⟨some "ann", some "pw"⟩ calmOutside).state = annState :=
  (signup_existing_user_rejected annState "ann" "pw" calmOutside (by decide) (by decide)).1
    ⟨⟨"ann", "$2b$10$secret"⟩, by simp [annState], rfl⟩

theorem uploadSingle_calls_not_writeFile (part : Option Upload) (out : Outside) :
    ∀ call ∈ (uploadSingle part out).1, call.isWriteFile = false := by
  intro call hcall
  unfold uploadSingle at hcall
  cases part with
  | none => simp at hcall
  | some file =>
    simp only at hcall
    split at hcall
    · simp at hcall
    · split at hcall <;> split at hcall <;> simp at hcall <;>
        rcases hcall with rfl | rfl | rfl <;> rfl

/-- C5 (as stated, refuted). A `POST /add-listing` with sellerName absent and a
PNG attached is answered 400, yet the attached file has been stored under
`public/uploads` before the required fields were checked. -/
theorem addListing_rejected_upload_counterexample :
    truthy incompleteBody.sellerName = false ∧
    (addListing annState incompleteBody (some pngUpload) calmOutside).response =
      .send 400 "All required fields must be filled." ∧
    storedUploads (addListing annState incompleteBody (some pngUpload) calmOutside).calls =
      ["public/uploads/productImage-1699999999990-123456789.png"] ∧
    (addListing annState incompleteBody (some pngUpload) calmOutside).calls ≠ [] := by
  refine ⟨rfl, rfl, ?_, ?_⟩
  · decide!
  · intro h
    have := congrArg List.length h
    revert this
    decide!

/-- C5 (amended). Validation comes before any mutation of the collections: a
`POST /signup` with username or password empty or absent and a
`POST /submit-review` with any of name, comment, rating empty or absent are
answered 400 with no file call issued and users, listings and reviews
unchanged.  A `POST /add-listing` with any of sellerName, sellerEmail,
sellerPhone, productName, productPrice empty or absent leaves users, listings
and reviews unchanged and writes no collection file: its only file calls are
those of the upload middleware, which has stored an attached image before the
check; it is answered 400 whenever the middleware passed the request on, and
with no attachment no file call is issued at all. -/
theorem validation_rejects_before_mutation (st : AppState) (out : Outside) :
    (∀ body : CredentialsBody,
      truthy body.username = false ∨ truthy body.password = false →
      Rejected400 st (signup st body out)) ∧
    (∀ body : ReviewBody,
      truthy body.name = false ∨ truthy body.comment = false ∨ truthy body.rating = false →
      Rejected400 st (submitReview st body out)) ∧
    (∀ (body : ListingBody) (part : Option Upload),
      truthy body.sellerName = false ∨ truthy body.sellerEmail = false ∨
        truthy body.sellerPhone = false ∨ truthy body.productName = false ∨
        truthy body.productPrice = false →
      (addListing st body part out).state = st ∧
      (addListing st body part out).calls = (uploadSingle part out).1 ∧
      (∀ call ∈ (addListing st body part out).calls, call.isWriteFile = false) ∧
      (∀ file, (uploadSingle part out).2 = .ok file →
        (addListing st body part out).response = .send 400 "All required fields must be filled.") ∧
      (part = none → Rejected400 st (addListing st body part out))) := by
  refine ⟨?_, ?_, ?_⟩
  · rintro ⟨username, password⟩ h
    have hc : signupCheck st.users ⟨username, password⟩ =
        .error (.send 400 "Error: Username and password are required.") := by
      cases username with
      | none => simp [signupCheck]
      | some u =>
        cases password with
        | none => simp [signupCheck]
        | some p =>
          have h' : u = "" ∨ p = "" := by simpa [truthy] using h
          simp [signupCheck, h']
    simp only [signup, hc]
    exact ⟨⟨_, rfl⟩, rfl, rfl⟩
  · intro body h
    have hg : (truthy body.name && truthy body.comment && truthy body.rating) = false := by
      rcases h with h | h | h <;> simp [h]
    simp only [submitReview, hg]
    exact ⟨⟨_, rfl⟩, rfl, rfl⟩
  · intro body part h
    have hg : (!truthy body.sellerName || !truthy body.sellerEmail || !truthy body.sellerPhone
        || !truthy body.productName || !truthy body.productPrice) = true := by
      rcases h with h | h | h | h | h <;> simp [h]
    have hhandler : ∀ file, addListingHandler st body file out =
        { state := st, response := .send 400 "All required fields must be filled.", calls := [] } := by
      intro file
      simp only [addListingHandler, hg, if_true]
    have hcalls : (addListing st body part out).calls = (uploadSingle part out).1 := by
      unfold addListing
      split
      · rfl
      · simp [hhandler]
    refine ⟨?_, hcalls, ?_, ?_, ?_⟩
    · unfold addListing
      split
      · rfl
      · simp [hhandler]
    · rw [hcalls]
      exact uploadSingle_calls_not_writeFile part out
    · intro file hfile
      simp only [addListing, hfile, hhandler]
    · intro hpart
      subst hpart
      exact ⟨⟨"All required fields must be filled.",
          by simp only [addListing, uploadSingle, hhandler]⟩,
        by simp only [addListing, uploadSingle, hhandler, List.append_nil],
        by simp only [addListing, uploadSingle, hhandler]⟩

theorem validation_rejects_before_mutation_witness :
    Rejected400 annState (signup annState ⟨some "bob", some ""⟩ calmOutside) ∧
    Rejected400 annState (submitReview annState ⟨some "Bob", none, some "5"⟩ calmOutside) ∧
    (addListing annState incompleteBody (some pngUpload) calmOutside).state = annState :=
  ⟨(validation_rejects_before_mutation annState calmOutside).1 ⟨some "bob", some ""⟩
      (Or.inr (by decide)),
    (validation_rejects_before_mutation annState calmOutside).2.1 ⟨some "Bob", none, some "5"⟩
      (Or.inr (Or.inl (by decide))),
    ((validation_rejects_before_mutation annState calmOutside).2.2 incompleteBody (some pngUpload)
      (Or.inl (by decide))).1⟩

/-- C10. For a `POST /login` with non-empty username and password, where
`bcrypt.compare` is a predicate `verify`: the answer is 400 "User not found"
exactly when no user has the name; 400 "Incorrect password" exactly when a user
has the name and the password does not verify against the stored hash of the
first such user; the redirect to `/` exactly when a user has the name and the
password verifies against the hash of the first such user.  No login, with
whatever body, changes the state or issues a file write. -/
theorem login_outcomes (st : AppState) (username password : String) (out : Outside)
    (verify : String → String → Bool) (hu : username ≠ "") (hp : password ≠ "") :
    ((login st ⟨some username, some password⟩ (out.withVerify verify)).response =
        userNotFoundResponse ↔ ∀ user ∈ st.users, user.name ≠ username) ∧
    ((login st ⟨some username, some password⟩ (out.withVerify verify)).response =
        incorrectPasswordResponse ↔
      ∃ user, FirstNamed st.users username user ∧ verify password user.password = false) ∧
    ((login st ⟨some username, some password⟩ (out.withVerify verify)).response =
        .redirect "/" ↔
      ∃ user, FirstNamed st.users username user ∧ verify password user.password = true) ∧
    (∀ (body : CredentialsBody) (out' : Outside),
      (login st body out').state = st ∧ (login st body out').calls = []) := by
  have hstate : ∀ (body : CredentialsBody) (out' : Outside),
      (login st body out').state = st ∧ (login st body out').calls = [] := by
    intro body out'
    unfold login
    split
    · split
      · exact ⟨rfl, rfl⟩
      · split
        · exact ⟨rfl, rfl⟩
        · split <;> exact ⟨rfl, rfl⟩
    · exact ⟨rfl, rfl⟩
  refine ⟨?_, ?_, ?_, hstate⟩
  all_goals
    cases hfind : st.users.find? (fun u => u.name == username) with
    | none =>
      have hnone := (find_named_eq_none_iff st.users username).mp hfind
      have hno : ¬ ∃ user, FirstNamed st.users username user := by
        rintro ⟨user, hfirst⟩
        rw [← find_named_eq_some_iff, hfind] at hfirst
        cases hfirst
      simp only [login, hu, hp, or_self, if_false, hfind, userNotFoundResponse,
        incorrectPasswordResponse]
      constructor
      · intro h
        first
          | exact hnone
          | exact absurd h (by decide)
      · intro h
        first
          | trivial
          | (obtain ⟨user, hf, _⟩ := h; exact (hno ⟨user, hf⟩).elim)
    | some found =>
      have hfirst := (find_named_eq_some_iff st.users username found).mp hfind
      have huniq : ∀ user, FirstNamed st.users username user → user = found := by
        intro user hf
        rw [← find_named_eq_some_iff, hfind] at hf
        exact (Option.some.inj hf).symm
      have hmem : ∃ user ∈ st.users, user.name = username := by
        obtain ⟨before, after, hsplit, hname, _⟩ := hfirst
        exact ⟨found, by rw [hsplit]; simp, hname⟩
      cases hv : verify password found.password
      all_goals
        simp only [login, hu, hp, or_self, if_false, hfind, userNotFoundResponse,
          incorrectPasswordResponse, Outside.withVerify, hv]
        constructor
        · intro h
          first
            | exact ⟨found, hfirst, hv⟩
            | exact absurd h (by decide)
        · intro h
          first
            | trivial
            | (obtain ⟨user, hm, hn⟩ := hmem; exact (h user hm hn).elim)
            | (obtain ⟨user, hf, hvu⟩ := h; rw [huniq user hf, hv] at hvu; cases hvu)

theorem login_outcomes_witness :
    (login annState ⟨some "ann", some "secret"⟩
        (calmOutside.withVerify (fun p h => decide (h = "$2b$10$" ++ p)))).response =
      .redirect "/" :=
  (login_outcomes annState "ann" "secret" calmOutside (fun p h => decide (h = "$2b$10$" ++ p))
      (by decide) (by decide)).2.2.1.mpr
    ⟨⟨"ann", "$2b$10$secret"⟩, ⟨[], [], rfl, rfl, by simp⟩, by decide⟩

theorem imageToRemove_of_unknown (listings : List Listing) (listingId : Field) (out : Outside)
    (h : ∀ listing ∈ listings, some listing._id ≠ listingId) :
    imageToRemove listings listingId out = none := by
  have hfind : listings.find? (fun listing => some listing._id == listingId) = none := by
    rw [List.find?_eq_none]
    intro listing hmem
    simpa using h listing hmem
  simp only [imageToRemove, hfind]

theorem deleteListing_of_removed (st : AppState) (listingId : Field) (out : Outside)
    (hid : truthy listingId = true)
    (hremove : ∀ path, imageToRemove st.listings listingId out = some path →
      out.unlinkError path = none) :
    deleteListing st ⟨listingId⟩ out =
      deleteListingStore st listingId out
        ((imageToRemove st.listings listingId out).toList.map FsCall.unlinkSync) := by
  simp only [deleteListing, hid, Bool.not_true, Bool.false_eq_true, if_false]
  cases himage : imageToRemove st.listings listingId out with
  | none => rfl
  | some path => simp only [hremove path himage, Option.toList, List.map_cons, List.map_nil]

theorem filter_id_eq_self (listings : List Listing) (listingId : Field)
    (h : ∀ listing ∈ listings, some listing._id ≠ listingId) :
    listings.filter (fun listing => some listing._id != listingId) = listings := by
  rw [List.filter_eq_self]
  intro listing hmem
  simpa using h listing hmem

/-- C2 (as stated, refuted). Two listings submitted within one millisecond carry
the same id; deleting that id removes both, so the length drops by two although
the id was present. -/
theorem deleteListing_exactly_one_counterexample :
    listingIds twinListings = ["1700000000000", "1700000000000"] ∧
    (deleteListing twinListings ⟨some "1700000000000"⟩ calmOutside).state.listings.length + 1 ≠
      twinListings.listings.length := by
  decide!

/-- C2 (amended). For a non-empty listingId: when the removal of the image file,
if `fs.unlinkSync` is called, does not throw, after `POST /delete-listing` the
collection is the previous one with every record of that id removed: the
records of a different id are exactly the ones still present, in the same
relative order; the length drops by the number of records carrying the id,
which is one when the id was present and the ids are pairwise distinct; users
and reviews are untouched, and the answer is the redirect to `/seller` when the
file write succeeds.  When `fs.unlinkSync` throws, the request ends there: the
state is unchanged, no file is written, and the answer is the error page. -/
theorem deleteListing_removes_all_with_id (st : AppState) (listingId : String) (out : Outside)
    (hid : listingId ≠ "") :
    ((∀ path, imageToRemove st.listings (some listingId) out = some path →
        out.unlinkError path = none) →
      (deleteListing st ⟨some listingId⟩ out).state.listings =
          st.listings.filter (fun listing => decide (listing._id ≠ listingId)) ∧
      (∀ listing, listing ∈ (deleteListing st ⟨some listingId⟩ out).state.listings ↔
          listing ∈ st.listings ∧ listing._id ≠ listingId) ∧
      List.Sublist (deleteListing st ⟨some listingId⟩ out).state.listings st.listings ∧
      (deleteListing st ⟨some listingId⟩ out).state.listings.length +
          st.listings.countP (fun listing => decide (listing._id = listingId)) =
        st.listings.length ∧
      ((listingIds st).Nodup → listingId ∈ listingIds st →
        (deleteListing st ⟨some listingId⟩ out).state.listings.length + 1 = st.listings.length) ∧
      (deleteListing st ⟨some listingId⟩ out).state.users = st.users ∧
      (deleteListing st ⟨some listingId⟩ out).state.reviews = st.reviews ∧
      (out.writeError = none →
        (deleteListing st ⟨some listingId⟩ out).response = .redirect "/seller")) ∧
    (∀ path message, imageToRemove st.listings (some listingId) out = some path →
      out.unlinkError path = some message →
      (deleteListing st ⟨some listingId⟩ out).state = st ∧
      (deleteListing st ⟨some listingId⟩ out).response = .failed message ∧
      (deleteListing st ⟨some listingId⟩ out).calls = [.unlinkSync path]) := by
  have htruthy : truthy (some listingId) = true := by simpa [truthy] using hid
  refine ⟨?_, ?_⟩
  swap
  · intro path message hpath hthrow
    simp [deleteListing, htruthy, hpath, hthrow]
  intro hremove
  have hstore := deleteListing_of_removed st (some listingId) out htruthy hremove
  have hl : (deleteListing st ⟨some listingId⟩ out).state.listings =
      st.listings.filter (fun listing => decide (listing._id ≠ listingId)) := by
    rw [hstore]
    simp only [deleteListingStore]
    congr 1
    funext listing
    by_cases h : listing._id = listingId <;> simp [h]
  have hcount : ∀ ls : List Listing,
      (ls.filter (fun listing => decide (listing._id ≠ listingId))).length +
        ls.countP (fun listing => decide (listing._id = listingId)) = ls.length := by
    intro ls
    induction ls with
    | nil => rfl
    | cons a t ih =>
      by_cases ha : a._id = listingId
      · simp [List.filter_cons, List.countP_cons, ha] at ih ⊢
        omega
      · simp [List.filter_cons, List.countP_cons, ha] at ih ⊢
        omega
  refine ⟨hl, ?_, ?_, ?_, ?_, ?_, ?_, ?_⟩
  · intro listing
    rw [hl]
    simp
  · rw [hl]
    exact List.filter_sublist _
  · rw [hl]
    exact hcount _
  · intro hnodup hmem
    rw [hl]
    have hone : st.listings.countP (fun listing => decide (listing._id = listingId)) = 1 := by
      have h1 : List.count listingId (listingIds st) = 1 := List.count_eq_one_of_mem hnodup hmem
      rw [← h1, listingIds, List.count, List.countP_map]
      congr 1
    have := hcount st.listings
    omega
  · rw [hstore]
    rfl
  · rw [hstore]
    rfl
  · intro hw
    rw [hstore]
    simp [deleteListingStore, hw, afterWrite]

theorem deleteListing_removes_all_with_id_witness :
    (deleteListing pictureListing ⟨some "1700000000000"⟩ tidyOutside).state.listings =
      pictureListing.listings.filter (fun listing => decide (listing._id ≠ "1700000000000")) ∧
    (deleteListing pictureListing ⟨some "1700000000000"⟩ stuckOutside).state = pictureListing :=
  ⟨((deleteListing_removes_all_with_id pictureListing "1700000000000" tidyOutside (by decide)).1
      (fun _ _ => rfl)).1,
    ((deleteListing_removes_all_with_id pictureListing "1700000000000" stuckOutside (by decide)).2
      "public/uploads/productImage-1699999999990-123456789.png"
      "EPERM: operation not permitted, unlink" (by decide!) rfl).1⟩

/-- What `/delete-listing` does with the image of a listing: the upload of the
listing is removed from `public/uploads`, a listing with the placeholder has no
file removed, and a removal that throws ends the request with the error page. -/
theorem deleteListing_image_examples :
    imageToRemove pictureListing.listings (some "1700000000000") tidyOutside =
      some "public/uploads/productImage-1699999999990-123456789.png" ∧
    imageToRemove pictureListing.listings (some "1700000000000") calmOutside = none ∧
    imageToRemove twinListings.listings (some "1700000000000") tidyOutside = none ∧
    (deleteListing pictureListing ⟨some "1700000000000"⟩ tidyOutside).state.listings = [] ∧
    (deleteListing pictureListing ⟨some "1700000000000"⟩ tidyOutside).response =
      .redirect "/seller" ∧
    (deleteListing pictureListing ⟨some "1700000000000"⟩ stuckOutside).response =
      .failed "EPERM: operation not permitted, unlink" ∧
    (deleteListing pictureListing ⟨some "1700000000000"⟩ stuckOutside).state.listings.length = 1 := by
  decide!

/-- C3 (as stated, refuted). With an absent listingId and a file system whose
writes succeed, `POST /delete-listing` is answered with the error status 400.
And a deletion that is ended by a throwing `unlinkSync` leaves the listing in
place, so that repeating it with a removal that succeeds gives another
collection than the first deletion gave. -/
theorem deleteListing_absent_id_counterexample :
    calmOutside.writeError = none ∧
    (deleteListing twinListings ⟨none⟩ calmOutside).response =
      .send 400 "Listing ID is required." ∧
    (deleteListing twinListings ⟨some ""⟩ calmOutside).response =
      .send 400 "Listing ID is required." ∧
    (deleteListing pictureListing ⟨some "1700000000000"⟩ stuckOutside).state.listings.length = 1 ∧
    (deleteListing (deleteListing pictureListing ⟨some "1700000000000"⟩ stuckOutside).state
      ⟨some "1700000000000"⟩ tidyOutside).state.listings.length = 0 := by
  refine ⟨rfl, rfl, rfl, by decide!, by decide!⟩

/-- C3 (amended). A `POST /delete-listing` whose listingId is non-empty and is
the id of no record leaves the collection unchanged, issues no `unlinkSync`
(its only `fs` call is the write of the listings file) and is answered with the
redirect when the write succeeds; with an absent or empty listingId the
collection is unchanged too and no `fs` call is issued, but the answer is 400.
Deleting the same id twice gives the same collection as deleting it once,
for an id of no record always, and for any id when the first deletion is not
ended by a throwing `unlinkSync`. -/
theorem deleteListing_unknown_id (st : AppState) (out : Outside) :
    (∀ listingId : String, listingId ≠ "" →
      (∀ listing ∈ st.listings, listing._id ≠ listingId) →
      (deleteListing st ⟨some listingId⟩ out).state = st ∧
      (deleteListing st ⟨some listingId⟩ out).calls =
        [.writeFile listingsFilePath (JSON.stringify (.array (st.listings.map Listing.toJS)))] ∧
      (out.writeError = none →
        (deleteListing st ⟨some listingId⟩ out).response = .redirect "/seller")) ∧
    (∀ listingId : Field, truthy listingId = false →
      (deleteListing st ⟨listingId⟩ out).state = st ∧
      (deleteListing st ⟨listingId⟩ out).calls = [] ∧
      (deleteListing st ⟨listingId⟩ out).response = .send 400 "Listing ID is required.") ∧
    (∀ (listingId : Field) (out' : Outside),
      (∀ listing ∈ st.listings, some listing._id ≠ listingId) →
      (deleteListing (deleteListing st ⟨listingId⟩ out).state ⟨listingId⟩ out').state =
        (deleteListing st ⟨listingId⟩ out).state) ∧
    (∀ (listingId : Field) (out' : Outside),
      (∀ path, imageToRemove st.listings listingId out = some path →
        out.unlinkError path = none) →
      (deleteListing (deleteListing st ⟨listingId⟩ out).state ⟨listingId⟩ out').state =
        (deleteListing st ⟨listingId⟩ out).state) := by
  have htwice : ∀ (listingId : Field) (out' : Outside),
      (∀ path, imageToRemove st.listings listingId out = some path →
        out.unlinkError path = none) →
      (deleteListing (deleteListing st ⟨listingId⟩ out).state ⟨listingId⟩ out').state =
        (deleteListing st ⟨listingId⟩ out).state := by
    intro listingId out' hremove
    cases ht : truthy listingId with
    | false => simp [deleteListing, ht]
    | true =>
      rw [deleteListing_of_removed st listingId out ht hremove]
      have hgone : ∀ listing ∈ (deleteListingStore st listingId out
          ((imageToRemove st.listings listingId out).toList.map FsCall.unlinkSync)).state.listings,
          some listing._id ≠ listingId := by
        intro listing hmem
        simp only [deleteListingStore, List.mem_filter] at hmem
        simpa using hmem.2
      rw [deleteListing_of_removed _ listingId out' ht (by
        intro path hpath
        rw [imageToRemove_of_unknown _ listingId out' hgone] at hpath
        cases hpath)]
      simp only [deleteListingStore, List.filter_filter, Bool.and_self]
  refine ⟨?_, ?_, ?_, htwice⟩
  · intro listingId hid hnone
    have htruthy : truthy (some listingId) = true := by simpa [truthy] using hid
    have hne : ∀ listing ∈ st.listings, some listing._id ≠ some listingId := by
      intro listing hmem h
      exact hnone listing hmem (Option.some.inj h)
    have hfilter := filter_id_eq_self st.listings (some listingId) hne
    have himage := imageToRemove_of_unknown st.listings (some listingId) out hne
    have hstore := deleteListing_of_removed st (some listingId) out htruthy (by
      intro path hpath
      rw [himage] at hpath
      cases hpath)
    rw [hstore, himage]
    refine ⟨?_, ?_, ?_⟩
    · simp only [deleteListingStore, hfilter]
    · simp only [deleteListingStore, hfilter, Option.toList, List.map_nil, List.nil_append]
    · intro hw
      simp [deleteListingStore, hw, afterWrite]
  · intro listingId hfalsy
    simp [deleteListing, hfalsy]
  · intro listingId out' hunknown
    apply htwice
    intro path hpath
    rw [imageToRemove_of_unknown st.listings listingId out hunknown] at hpath
    cases hpath

theorem deleteListing_unknown_id_witness :
    (deleteListing twinListings ⟨some "42"⟩ calmOutside).state = twinListings :=
  ((deleteListing_unknown_id twinListings calmOutside).1 "42" (by decide) (by decide)).1

theorem signupCheck_ok (users : List User) (body : CredentialsBody) (username password : String)
    (h : signupCheck users body = .ok (username, password)) :
    body.username = some username ∧ body.password = some password ∧ username ≠ "" ∧
      password ≠ "" ∧ ∀ user ∈ users, user.name ≠ username := by
  obtain ⟨u, p⟩ := body
  cases u with
  | none => simp [signupCheck] at h
  | some u =>
    cases p with
    | none => simp [signupCheck] at h
    | some p =>
      simp only [signupCheck] at h
      split at h
      · cases h
      · rename_i hne
        split at h
        · cases h
        · rename_i hfind
          cases h
          have hne' : ¬ username = "" ∧ ¬ password = "" := by simpa [not_or] using hne
          exact ⟨rfl, rfl, hne'.1, hne'.2, (find_named_eq_none_iff users username).mp hfind⟩

theorem signup_users (st : AppState) (body : CredentialsBody) (out : Outside) :
    (signup st body out).state.users = st.users ∨
    ∃ username hashed, (∀ user ∈ st.users, user.name ≠ username) ∧
      (signup st body out).state.users = st.users ++ [{ name := username, password := hashed }] := by
  unfold signup
  cases hc : signupCheck st.users body with
  | error r => exact Or.inl rfl
  | ok pr =>
    obtain ⟨username, password⟩ := pr
    obtain ⟨-, -, -, -, hfresh⟩ := signupCheck_ok st.users body username password hc
    simp only [signupStore]
    cases out.hash password with
    | none => exact Or.inl rfl
    | some hashed => exact Or.inr ⟨username, hashed, hfresh, rfl⟩

theorem signup_names_nodup (st : AppState) (body : CredentialsBody) (out : Outside)
    (h : (userNames st).Nodup) : (userNames (signup st body out).state).Nodup := by
  rcases signup_users st body out with hsame | ⟨username, hashed, hfresh, happ⟩
  · simpa [userNames, hsame] using h
  · simp only [userNames, happ, List.map_append, List.map_cons, List.map_nil]
    rw [List.nodup_append]
    refine ⟨h, List.nodup_singleton _, ?_⟩
    intro a ha hb
    simp only [List.mem_singleton] at hb
    subst hb
    obtain ⟨user, hmem, rfl⟩ := List.mem_map.mp ha
    exact hfresh user hmem rfl

theorem deleteUser_names_nodup (st : AppState) (body : DeleteUserBody) (out : Outside)
    (h : (userNames st).Nodup) : (userNames (deleteUser st body out).state).Nodup := by
  simp only [userNames, deleteUser]
  exact List.Nodup.sublist (List.Sublist.map _ (List.filter_sublist _)) h

/-- The answers of the routes when an outside call fails, and those of the
upload middleware to a part it refuses. -/
theorem failure_responses :
    (signup emptyState ⟨some "ann", some "pw"⟩ failingOutside).response =
      .send 500 "Error: Could not hash password." ∧
    (signup emptyState ⟨some "ann", some "pw"⟩ failingOutside).state = emptyState ∧
    (signup emptyState ⟨some "ann", some "pw"⟩
        { calmOutside with writeError := some "EACCES: permission denied" }).response =
      .send 500 "Error: Could not save user data to file. Details: EACCES: permission denied" ∧
    userNames (signup emptyState ⟨some "ann", some "pw"⟩
        { calmOutside with writeError := some "EACCES: permission denied" }).state = ["ann"] ∧
    (login annState ⟨some "ann", some "pw"⟩ failingOutside).response =
      .send 500 "Error: Login failed due to an internal error." ∧
    (login annState ⟨none, some "pw"⟩ calmOutside).response =
      .send 400 "Error: Username and password are required." ∧
    (deleteUser annState ⟨some "ann"⟩ failingOutside).response = .send 500 "Error deleting user." ∧
    (deleteUser annState ⟨some "ann"⟩ calmOutside).response = .redirect "/admin" ∧
    userNames (deleteUser annState ⟨some "ann"⟩ failingOutside).state = [] ∧
    userNames (deleteUser annState ⟨none⟩ calmOutside).state = ["ann"] ∧
    (submitReview emptyState (bobReview "5") failingOutside).response =
      .send 500 "Error saving review." ∧
    (submitReview emptyState (bobReview "5") calmOutside).response = .redirect "/" ∧
    (addListing emptyState jacketBody none failingOutside).response =
      .send 500 "Error saving listing." ∧
    (addListing emptyState jacketBody none calmOutside).response = .redirect "/seller" ∧
    (addListing emptyState jacketBody (some textUpload) calmOutside).response =
      .failed "Not an image! Please upload only images." ∧
    (addListing emptyState jacketBody (some textUpload) calmOutside).state = emptyState ∧
    (addListing emptyState jacketBody (some largeUpload) calmOutside).response =
      .failed "File too large" ∧
    (addListing emptyState jacketBody (some largeUpload) calmOutside).state = emptyState ∧
    (deleteListing twinListings ⟨some "1700000000000"⟩ failingOutside).response =
      .send 500 "Error deleting listing." ∧
    (pictureListing.listings.map Listing.imageUrl) =
      ["/uploads/productImage-1699999999990-123456789.png"] := by
  decide!

/-- C7 (as stated, refuted). On a server with no user, a signup for `ann`
arrives and waits for its hash, a second signup for `ann` arrives and passes
the same check, then both hashes settle: both requests are answered with the
redirect to `/login`, and the users collection, whose names were pairwise
distinct, holds the name `ann` twice. -/
theorem overlapping_signups_store_both :
    (userNames emptyState).Nodup ∧
    (serve ⟨emptyState, []⟩ overlappingSignups).2 = [.redirect "/login", .redirect "/login"] ∧
    userNames (serve ⟨emptyState, []⟩ overlappingSignups).1.app = ["ann", "ann"] ∧
    ¬ (userNames (serve ⟨emptyState, []⟩ overlappingSignups).1.app).Nodup := by
  decide!

/-- A signup whose hash settles in the turn after its arrival, with nothing in
between, is the signup handled in one piece. -/
theorem serve_signup_alone (st : AppState) (body : CredentialsBody) (out : Outside)
    (turns : List Turn) :
    serve ⟨st, []⟩ (.signupArrives body :: .hashSettles 0 out :: turns) =
      ((serve ⟨(signup st body out).state, []⟩ turns).1,
        (signup st body out).response :: (serve ⟨(signup st body out).state, []⟩ turns).2) := by
  simp only [serve, Server.turn, signup]
  cases hc : signupCheck st.users body with
  | error response => rfl
  | ok waitingSignup =>
    obtain ⟨username, password⟩ := waitingSignup
    rfl

theorem serve_deleteUser (st : AppState) (body : DeleteUserBody) (out : Outside)
    (turns : List Turn) :
    serve ⟨st, []⟩ (.deleteUser body out :: turns) =
      ((serve ⟨(deleteUser st body out).state, []⟩ turns).1,
        (deleteUser st body out).response :: (serve ⟨(deleteUser st body out).state, []⟩ turns).2) :=
  rfl

/-- C7 (amended). If the names of the users are pairwise distinct, they still
are after a `POST /delete-user`, whatever signups wait for their hash, and
after a `POST /signup`, accepted or rejected, whose hash settles before any
other request is served; hence from a users collection that is empty or free of
duplicates, every state reached by signup and delete-user requests handled one
at a time has pairwise distinct user names. -/
theorem user_names_stay_distinct (st : AppState) (h : (userNames st).Nodup) :
    (∀ (body : CredentialsBody) (out : Outside),
      (userNames (serve ⟨st, []⟩ [.signupArrives body, .hashSettles 0 out]).1.app).Nodup) ∧
    (∀ (waiting : List (String × String)) (body : DeleteUserBody) (out : Outside),
      (userNames ((Server.mk st waiting).turn (.deleteUser body out)).1.app).Nodup) ∧
    (∀ requests : List UserRequest,
      (userNames (serve ⟨st, []⟩ (oneAtATime requests)).1.app).Nodup) := by
  refine ⟨?_, ?_, ?_⟩
  · intro body out
    rw [serve_signup_alone]
    exact signup_names_nodup st body out h
  · intro waiting body out
    exact deleteUser_names_nodup st body out h
  · intro requests
    induction requests generalizing st with
    | nil => exact h
    | cons request rest ih =>
      cases request with
      | signup body out =>
        simp only [oneAtATime]
        rw [serve_signup_alone]
        exact ih _ (signup_names_nodup st body out h)
      | deleteUser body out =>
        simp only [oneAtATime]
        rw [serve_deleteUser]
        exact ih _ (deleteUser_names_nodup st body out h)

theorem user_names_stay_distinct_witness :
    (userNames (serve ⟨emptyState, []⟩ (oneAtATime
      [.signup ⟨some "ann", some "pw"⟩ calmOutside, .signup ⟨some "ann", some "other"⟩ calmOutside,
        .deleteUser ⟨some "ann"⟩ calmOutside,
        .signup ⟨some "ann", some "pw"⟩ calmOutside])).1.app).Nodup :=
  (user_names_stay_distinct emptyState (by simp [userNames, emptyState])).2.2 _

theorem parseElements_stringifyElements_users (users : List User) :
    JSON.parseElements (JSON.stringifyElements (users.map User.toJS)) = users.map User.toJS := by
  induction users with
  | nil => rfl
  | cons user rest ih =>
    simp only [List.map_cons, JSON.stringifyElements, JSON.parseElements, ih]
    rfl

theorem stringifyElements_users (users : List User) :
    JSON.stringifyElements (users.map User.toJS) =
      users.map (fun u => Json.object [("name", .string u.name), ("password", .string u.password)]) := by
  induction users with
  | nil => rfl
  | cons user rest ih =>
    simp only [List.map_cons, JSON.stringifyElements, ih]
    rfl

/-- C6. A `POST /signup` with non-empty username and password, a username that
no user of the collection has, a hash that succeeds and a file write that
succeeds is answered with the redirect to `/login`; the users collection is the
previous one followed by the record `{name: username, password: hash}` (one
record more, the earlier ones unchanged and in order); the one file call is the
write of `data.json`, whose text is the array of the `{name, password}` objects
of that collection and parses to one record more than the collection had, the
last reading the username as name and the hash as password; a find by the name
then returns the new record, whose password field is the hash.  The field is
what `bcrypt.hash` resolved to and nothing of the request's password: any other
password with the same hash stores the same state, and being a text of 60
characters the field differs from every password of another length.  (Stated
for a signup served with no other request during its `await`; in any case the
turn in which the hash settles pushes the record behind the users of that
moment.) -/
theorem signup_fresh_user_appended (st : AppState) (username password hashed : String)
    (out : Outside) (hu : username ≠ "") (hp : password ≠ "")
    (hfresh : ∀ user ∈ st.users, user.name ≠ username)
    (hhash : out.hash password = some hashed) (hwrite : out.writeError = none) :
    (signup st ⟨some username, some password⟩ out).response = .redirect "/login" ∧
    (signup st ⟨some username, some password⟩ out).state.users =
      st.users ++ [User.mk username hashed] ∧
    (signup st ⟨some username, some password⟩ out).state.users.length = st.users.length + 1 ∧
    (∃ text, (signup st ⟨some username, some password⟩ out).calls =
        [.writeFile dataFilePath (some text)] ∧
      text = .array ((st.users ++ [User.mk username hashed]).map
        (fun u => Json.object [("name", .string u.name), ("password", .string u.password)])) ∧
      JSON.parse text =
        .array ((st.users ++ [User.mk username hashed]).map User.toJS) ∧
      ∃ records last, JSON.parse text = .array records ∧
        records.length = st.users.length + 1 ∧ records.getLast? = some last ∧
        last.get "name" = .string username ∧ last.get "password" = .string hashed) ∧
    (signup st ⟨some username, some password⟩ out).state.users.find?
        (fun user => user.name == username) = some (User.mk username hashed) ∧
    FirstNamed (signup st ⟨some username, some password⟩ out).state.users username
      (User.mk username hashed) ∧
    hashed.length = 60 ∧
    (password.length ≠ 60 →
      ∀ user, (signup st ⟨some username, some password⟩ out).state.users.find?
        (fun user => user.name == username) = some user → user.password ≠ password) ∧
    (∀ (other : String) (out' : Outside), other ≠ "" → out'.hash other = some hashed →
      (signup st ⟨some username, some other⟩ out').state =
        (signup st ⟨some username, some password⟩ out).state) ∧
    (signup st ⟨some username, some password⟩ out).state.listings = st.listings ∧
    (signup st ⟨some username, some password⟩ out).state.reviews = st.reviews ∧
    (∀ (s : Server) (position : ℕ), s.waiting.get? position = some (username, password) →
      (s.turn (.hashSettles position out)).1.app.users =
        s.app.users ++ [User.mk username hashed]) := by
  have hnone := (find_named_eq_none_iff st.users username).mpr hfresh
  have hfind : (st.users ++ [User.mk username hashed]).find?
      (fun user => user.name == username) = some (User.mk username hashed) := by
    rw [List.find?_append, hnone]
    simp
  have hlength : hashed.length = 60 := out.hashLength password hashed hhash
  have hstate : ∀ (other : String) (out' : Outside), other ≠ "" → out'.hash other = some hashed →
      (signup st ⟨some username, some other⟩ out').state =
        { st with users := st.users ++ [User.mk username hashed] } := by
    intro other out' hother hhash'
    simp only [signup, signupCheck_of_fresh st.users username other hu hother hfresh, signupStore,
      hhash']
  have hout : signup st ⟨some username, some password⟩ out =
      { state := { st with users := st.users ++ [User.mk username hashed] }
        response := .redirect "/login"
        calls := [.writeFile dataFilePath (JSON.stringify
          (.array ((st.users ++ [User.mk username hashed]).map User.toJS)))] } := by
    simp only [signup, signupCheck_of_fresh st.users username password hu hp hfresh, signupStore,
      hhash, hwrite, afterWrite]
  refine ⟨by rw [hout], by rw [hout], by rw [hout]; simp, ?_, by rw [hout]; exact hfind,
    by rw [hout]; exact (find_named_eq_some_iff _ _ _).mp hfind, hlength, ?_, ?_,
    by rw [hout], by rw [hout], ?_⟩
  · have hparse : JSON.parse (.array (JSON.stringifyElements
        ((st.users ++ [User.mk username hashed]).map User.toJS))) =
        .array ((st.users ++ [User.mk username hashed]).map User.toJS) := by
      simp only [JSON.parse, parseElements_stringifyElements_users]
    rw [hout]
    refine ⟨_, rfl, ?_, hparse, _, User.toJS (User.mk username hashed), hparse, by simp, ?_, ?_, ?_⟩
    · rw [stringifyElements_users]
    · simp
    · simp [User.toJS, JSValue.get, lookupProperty]
    · simp [User.toJS, JSValue.get, lookupProperty]
  · intro hne user huser
    rw [hout] at huser
    simp only [hfind, Option.some.injEq] at huser
    subst huser
    intro heq
    apply hne
    rw [← hlength]
    exact congrArg String.length heq.symm
  · intro other out' hother hhash'
    rw [hstate other out' hother hhash', hout]
  · intro s position hwaiting
    simp only [Server.turn, hwaiting, signupStore, hhash]

theorem signup_fresh_user_appended_witness :
    (signup emptyState ⟨some "ann", some "secret"⟩ calmOutside).state.users =
      emptyState.users ++ [User.mk "ann" (sampleHash "secret")] :=
  (signup_fresh_user_appended emptyState "ann" "secret" (sampleHash "secret") calmOutside
    (by decide) (by decide) (by simp [emptyState]) rfl rfl).2.1

/-! ### Numbers -/

theorem digitValue_digitChar (d : ℕ) (h : d < 10) : digitValue 10 (digitChar d) = some d := by
  interval_cases d <;> rfl

theorem isStrWhiteSpaceChar_digitChar (d : ℕ) (h : d < 10) :
    isStrWhiteSpaceChar (digitChar d) = false := by
  interval_cases d <;> rfl

theorem digitChar_ne (d : ℕ) (h : d < 10) (c : Char) (hc : digitValue 10 c = none) :
    digitChar d ≠ c := by
  intro heq
  rw [← heq, digitValue_digitChar d h] at hc
  cases hc

theorem spanDigits_digits (digits : List ℕ) (rest : List Char)
    (hd : ∀ d ∈ digits, d < 10) (hrest : ∀ c r, rest = c :: r → digitValue 10 c = none) :
    spanDigits 10 (digits.map digitChar ++ rest) = (digits, rest) := by
  induction digits with
  | nil =>
    cases rest with
    | nil => rfl
    | cons c r => simp [spanDigits, hrest c r rfl]
  | cons d ds ih =>
    have hd' : ∀ x ∈ ds, x < 10 := fun x hx => hd x (List.mem_cons_of_mem _ hx)
    simp [spanDigits, digitValue_digitChar d (hd d (List.mem_cons_self _ _)), ih hd']

theorem digitsValue_append (radix : ℕ) (ds : List ℕ) (d : ℕ) :
    digitsValue radix (ds ++ [d]) = digitsValue radix ds * radix + d := by
  simp [digitsValue, List.foldl_append]

theorem digitsValue_eq_ofDigits (radix : ℕ) (ds : List ℕ) :
    digitsValue radix ds = Nat.ofDigits radix ds.reverse := by
  induction ds using List.reverseRecOn with
  | nil => rfl
  | append_singleton ds d ih =>
    rw [digitsValue_append, ih, List.reverse_append, List.reverse_singleton,
      List.singleton_append, Nat.ofDigits_cons]
    ring

theorem two_pow_halvings_le (fuel n : ℕ) (h1 : 1 ≤ n) : 2 ^ halvings fuel n ≤ n := by
  induction fuel generalizing n with
  | zero => simpa [halvings] using h1
  | succ fuel ih =>
    simp only [halvings]
    split
    · simpa using h1
    · rename_i h2
      have h3 : 1 ≤ n / 2 := by omega
      have h4 := ih (n / 2) h3
      rw [pow_succ]
      omega

theorem two_pow_bitLog2_le (n : ℕ) (h1 : 1 ≤ n) : 2 ^ bitLog2 n ≤ n :=
  two_pow_halvings_le n n h1

theorem lt_two_pow_halvings_succ (fuel n : ℕ) (h : n ≤ fuel) : n < 2 ^ (halvings fuel n + 1) := by
  induction fuel generalizing n with
  | zero =>
    have : n = 0 := by omega
    subst this
    simp [halvings]
  | succ fuel ih =>
    simp only [halvings]
    split
    · simpa using (by omega : n < 2)
    · rename_i h2
      have h4 := ih (n / 2) (by omega)
      rw [pow_succ] at h4 ⊢
      omega

theorem le_bitLog2_two_pow (j : ℕ) : j ≤ bitLog2 (2 ^ j) := by
  have h := lt_two_pow_halvings_succ (2 ^ j) (2 ^ j) le_rfl
  have := (Nat.pow_lt_pow_iff_right (by norm_num : 1 < 2)).mp h
  unfold bitLog2
  omega

theorem roundHalfEven_intCast (z : ℤ) : roundHalfEven (z : ℚ) = z := by
  simp [roundHalfEven]

theorem floorLog2_natCast_le (n : ℕ) : floorLog2 (n : ℚ) ≤ (bitLog2 n : ℤ) := by
  have h1 : bitLog2 1 = 0 := rfl
  simp only [floorLog2, Rat.num_natCast, Rat.den_natCast, Int.natAbs_ofNat, h1]
  split <;> simp

theorem natCast_lt_two_pow (n e : ℕ) (h : n < 2 ^ e) : (n : ℚ) < (2 : ℚ) ^ e := by
  exact_mod_cast h

theorem binary64Pos_natCast (n m k : ℕ) (hpos : 1 ≤ n) (hn : n = m * 2 ^ k) (hm : m < 2 ^ 53)
    (hlt : n < 2 ^ 1024) : binary64Pos (n : ℚ) = .finite n := by
  have hL : 2 ^ bitLog2 n ≤ n := two_pow_bitLog2_le n hpos
  have hlt' : n < 2 ^ (53 + k) := by
    rw [hn, pow_add]
    exact Nat.mul_lt_mul_of_pos_right hm (by positivity)
  have hLk : bitLog2 n < 53 + k :=
    (Nat.pow_lt_pow_iff_right (by norm_num : 1 < 2)).mp (lt_of_le_of_lt hL hlt')
  have he : max (floorLog2 (n : ℚ) - 52) (-1074) ≤ (k : ℤ) := by
    have := floorLog2_natCast_le n
    apply max_le <;> omega
  have h2 : (2 : ℚ) ≠ 0 := two_ne_zero
  have hnot : ¬ (2 : ℚ) ^ (1024 : ℤ) ≤ (n : ℚ) := by
    rw [not_le, show (1024 : ℤ) = ((1024 : ℕ) : ℤ) from rfl, zpow_natCast]
    exact natCast_lt_two_pow n 1024 hlt
  simp only [binary64Pos]
  generalize max (floorLog2 (n : ℚ) - 52) (-1074) = e at he
  obtain ⟨j, hj⟩ := Int.eq_ofNat_of_zero_le (sub_nonneg.mpr he)
  have hk : (k : ℤ) = (j : ℤ) + e := by omega
  have hcast : (n : ℚ) = (m : ℚ) * (2 : ℚ) ^ (k : ℤ) := by
    rw [hn, zpow_natCast]
    push_cast
    rfl
  have hdiv : (n : ℚ) / (2 : ℚ) ^ e = (((m * 2 ^ j : ℕ) : ℤ) : ℚ) := by
    rw [div_eq_iff (zpow_ne_zero _ h2), hcast, hk, zpow_add₀ h2, zpow_natCast]
    push_cast
    ring
  have hv : ((roundHalfEven ((n : ℚ) / (2 : ℚ) ^ e) : ℤ) : ℚ) * (2 : ℚ) ^ e = (n : ℚ) := by
    rw [hdiv, roundHalfEven_intCast, ← hdiv]
    exact div_mul_cancel₀ _ (zpow_ne_zero _ h2)
  rw [hv, if_neg hnot]

theorem binary64_of_pos_isDoubleValue (q : ℚ) (hpos : 0 < q) (h : IsDoubleValue q) :
    binary64 q = .finite q := by
  obtain ⟨hnum, j, hj, hden⟩ := h
  have hnumpos : 0 < q.num := Rat.num_pos.mpr hpos
  obtain ⟨a, ha⟩ := Int.eq_ofNat_of_zero_le hnumpos.le
  have hapos : 1 ≤ a := by omega
  have ha53 : a < 2 ^ 53 := by simpa [ha] using hnum
  have hL : bitLog2 a < 53 :=
    (Nat.pow_lt_pow_iff_right (by norm_num : 1 < 2)).mp
      (lt_of_le_of_lt (two_pow_bitLog2_le a hapos) ha53)
  have hfl : floorLog2 q ≤ (bitLog2 a : ℤ) - (j : ℤ) := by
    have hb := le_bitLog2_two_pow j
    simp only [floorLog2, ha, Int.natAbs_ofNat, hden]
    split <;> omega
  have h2 : (2 : ℚ) ≠ 0 := two_ne_zero
  have hq : q = (a : ℚ) / (2 : ℚ) ^ j := by
    have := Rat.num_div_den q
    rw [ha, hden] at this
    rw [← this]
    push_cast
    rfl
  have hle : q ≤ (a : ℚ) := by
    rw [hq]
    apply div_le_self (by positivity)
    exact one_le_pow₀ (by norm_num)
  have hnot : ¬ (2 : ℚ) ^ (1024 : ℤ) ≤ q := by
    rw [not_le, show (1024 : ℤ) = ((1024 : ℕ) : ℤ) from rfl, zpow_natCast]
    exact lt_of_le_of_lt hle (natCast_lt_two_pow a 1024 (lt_trans ha53 (by norm_num)))
  simp only [binary64, hpos.ne', hpos, if_false, if_true, binary64Pos]
  have he : max (floorLog2 q - 52) (-1074) ≤ -(j : ℤ) := by
    apply max_le <;> omega
  generalize max (floorLog2 q - 52) (-1074) = e at he
  obtain ⟨t, ht⟩ := Int.eq_ofNat_of_zero_le (sub_nonneg.mpr he)
  have hdiv : q / (2 : ℚ) ^ e = (((a * 2 ^ t : ℕ) : ℤ) : ℚ) := by
    rw [div_eq_iff (zpow_ne_zero _ h2)]
    have hte : (t : ℤ) + e = -(j : ℤ) := by omega
    have : (2 : ℚ) ^ (t : ℕ) * (2 : ℚ) ^ e = ((2 : ℚ) ^ j)⁻¹ := by
      rw [← zpow_natCast, ← zpow_add₀ h2, hte, zpow_neg, zpow_natCast]
    push_cast
    rw [mul_assoc, this, hq]
    rfl
  have hv : ((roundHalfEven (q / (2 : ℚ) ^ e) : ℤ) : ℚ) * (2 : ℚ) ^ e = q := by
    rw [hdiv, roundHalfEven_intCast, ← hdiv]
    exact div_mul_cancel₀ _ (zpow_ne_zero _ h2)
  rw [hv, if_neg hnot]

theorem binary64_neg_of_nonneg (q : ℚ) (h : 0 ≤ q) : binary64 (-q) = (binary64 q).neg := by
  rcases h.eq_or_lt with h0 | hpos
  · subst h0
    simp [binary64, JSNumber.neg]
  · have hneg : ¬ (0 : ℚ) < -q := by linarith
    have hne : -q ≠ 0 := by linarith
    simp only [binary64, hpos.ne', hpos, hneg, hne, if_false, if_true, neg_neg]

/-- A rational that is the exact value of a double is its own nearest double. -/
theorem binary64_of_isDoubleValue (q : ℚ) (h : IsDoubleValue q) : binary64 q = .finite q := by
  rcases lt_trichotomy q 0 with hneg | hzero | hpos
  · have hdouble : IsDoubleValue (-q) := by
      obtain ⟨hnum, j, hj, hden⟩ := h
      exact ⟨by simpa using hnum, j, hj, by simpa using hden⟩
    have hq : q = -(-q) := by ring
    rw [hq, binary64_neg_of_nonneg (-q) (by linarith),
      binary64_of_pos_isDoubleValue (-q) (by linarith) hdouble]
    simp [JSNumber.neg]
  · subst hzero
    simp [binary64]
  · exact binary64_of_pos_isDoubleValue q hpos h

theorem binary64_natCast (n m k : ℕ) (hn : n = m * 2 ^ k) (hm : m < 2 ^ 53)
    (hlt : n < 2 ^ 1024) : binary64 (n : ℚ) = .finite n := by
  rcases Nat.eq_zero_or_pos n with h0 | hpos
  · simp [binary64, h0]
  · have hq : (0 : ℚ) < n := by exact_mod_cast hpos
    simp only [binary64, hq.ne', hq, if_false, if_true]
    exact binary64Pos_natCast n m k hpos hn hm hlt

theorem isDouble_of_natAbs_le (n : ℤ) (h : n.natAbs ≤ 2 ^ 53) : IsDouble n := by
  rcases Nat.lt_or_ge n.natAbs (2 ^ 53) with hlt | hge
  · exact ⟨n.natAbs, 0, by simp, hlt, lt_trans hlt (by norm_num)⟩
  · have heq : n.natAbs = 2 ^ 53 := le_antisymm h hge
    exact ⟨2 ^ 52, 1, by rw [heq]; norm_num, by norm_num, by rw [heq]; norm_num⟩

theorem radixLead_digits (digits : List ℕ) (hd : ∀ d ∈ digits, d < 10) :
    radixLead (digits.map digitChar) = (10, digits.map digitChar) := by
  match digits, hd with
  | [], _ => rfl
  | [_], _ => rfl
  | d₁ :: d₂ :: ds, hd =>
    have h2 : d₂ < 10 := hd d₂ (by simp)
    have hx : digitChar d₂ ≠ 'x' := digitChar_ne d₂ h2 'x' rfl
    have hX : digitChar d₂ ≠ 'X' := digitChar_ne d₂ h2 'X' rfl
    simp [radixLead, hx, hX]

theorem splitSign_digits (digits : List ℕ) (hd : ∀ d ∈ digits, d < 10) :
    splitSign (digits.map digitChar) = (false, digits.map digitChar) := by
  match digits, hd with
  | [], _ => rfl
  | d :: ds, hd =>
    have h1 : d < 10 := hd d (by simp)
    have hm : digitChar d ≠ '-' := digitChar_ne d h1 '-' rfl
    have hp : digitChar d ≠ '+' := digitChar_ne d h1 '+' rfl
    simp [splitSign, hm, hp]

theorem dropWhile_digits (digits : List ℕ) (hd : ∀ d ∈ digits, d < 10) :
    (digits.map digitChar).dropWhile isStrWhiteSpaceChar = digits.map digitChar := by
  match digits, hd with
  | [], _ => rfl
  | d :: ds, hd =>
    have h1 : d < 10 := hd d (by simp)
    simp [List.dropWhile, isStrWhiteSpaceChar_digitChar d h1]

theorem spanDigits_all_digits (digits : List ℕ) (hd : ∀ d ∈ digits, d < 10) :
    spanDigits 10 (digits.map digitChar) = (digits, []) := by
  have := spanDigits_digits digits [] hd (fun c r h => by cases h)
  simpa using this

theorem digitsValue_eq_decimalValue (ds : List ℕ) : digitsValue 10 ds = decimalValue ds :=
  digitsValue_eq_ofDigits 10 ds

theorem binary64_neg_natCast (m : ℕ) : binary64 (-(m : ℚ)) = (binary64 (m : ℚ)).neg := by
  rcases Nat.eq_zero_or_pos m with h0 | hpos
  · subst h0
    simp [binary64, JSNumber.neg]
  · have hq : (0 : ℚ) < m := by exact_mod_cast hpos
    have hneg : ¬ (0 : ℚ) < -(m : ℚ) := by linarith
    have hne : -(m : ℚ) ≠ 0 := by linarith
    simp only [binary64, hq.ne', hq, hneg, hne, if_false, if_true, neg_neg]

/-- On a decimal integer literal, `Number.parseInt` returns the double nearest
to the integer the literal denotes. -/
theorem parseInt_integer_literal (text : String) (n : ℤ)
    (hlit : IsDecimalIntegerLiteral text n) : parseInt text = binary64 (n : ℚ) := by
  obtain ⟨negative, digits, hne, hd, rfl, rfl⟩ := hlit
  cases negative with
  | false =>
    simp only [parseInt, Bool.false_eq_true, if_false, List.nil_append, dropWhile_digits digits hd,
      splitSign_digits digits hd, radixLead_digits digits hd, spanDigits_all_digits digits hd, hne,
      digitsValue_eq_decimalValue, withSign]
    simp
  | true =>
    have hdrop : (['-'] ++ digits.map digitChar).dropWhile isStrWhiteSpaceChar =
        '-' :: digits.map digitChar := rfl
    have hsign : splitSign ('-' :: digits.map digitChar) = (true, digits.map digitChar) := rfl
    simp only [parseInt, if_true, hdrop, hsign, radixLead_digits digits hd,
      spanDigits_all_digits digits hd, hne, if_false, digitsValue_eq_decimalValue, withSign]
    rw [← binary64_neg_natCast]
    simp

/-- The double nearest to an integer that a double represents exactly is that
integer. -/
theorem binary64_intCast (n : ℤ) (hrep : IsDouble n) : binary64 (n : ℚ) = .finite n := by
  obtain ⟨m, k, hmk, hm, hlt⟩ := hrep
  obtain ⟨a, rfl | rfl⟩ := Int.eq_nat_or_neg n
  · simp only [Int.natAbs_ofNat] at hmk hlt
    simpa using binary64_natCast a m k hmk hm hlt
  · simp only [Int.natAbs_neg, Int.natAbs_ofNat] at hmk hlt
    simp only [Int.cast_neg, Int.cast_natCast]
    rw [binary64_neg_natCast, binary64_natCast a m k hmk hm hlt]
    simp [JSNumber.neg]

theorem parseFloat_start (d : ℕ) (h : d < 10) (rest : List Char) :
    splitSign ((digitChar d :: rest).dropWhile isStrWhiteSpaceChar) = (false, digitChar d :: rest) ∧
    "Infinity".data.isPrefixOf (digitChar d :: rest) = false := by
  have hm : digitChar d ≠ '-' := digitChar_ne d h '-' rfl
  have hp : digitChar d ≠ '+' := digitChar_ne d h '+' rfl
  have hI : digitChar d ≠ 'I' := digitChar_ne d h 'I' rfl
  refine ⟨?_, ?_⟩
  · simp [List.dropWhile, isStrWhiteSpaceChar_digitChar d h, splitSign, hm, hp]
  · have : "Infinity".data = 'I' :: "nfinity".data := rfl
    rw [this]
    simp [List.isPrefixOf, hI.symm]

theorem splitSign_signed (sign : SignMark) (d : ℕ) (h : d < 10) (rest : List Char) :
    splitSign (sign.chars ++ digitChar d :: rest) =
      (decide (sign.factor = -1), digitChar d :: rest) := by
  have hm : digitChar d ≠ '-' := digitChar_ne d h '-' rfl
  have hp : digitChar d ≠ '+' := digitChar_ne d h '+' rfl
  cases sign <;> simp [SignMark.chars, SignMark.factor, splitSign, hm, hp]

theorem dropWhile_signed (sign : SignMark) (d : ℕ) (h : d < 10) (rest : List Char) :
    (sign.chars ++ digitChar d :: rest).dropWhile isStrWhiteSpaceChar =
      sign.chars ++ digitChar d :: rest := by
  cases sign
  · simp [SignMark.chars, List.dropWhile, isStrWhiteSpaceChar_digitChar d h]
  · rfl
  · rfl

theorem exponentChars_head (exponent : Option ExponentPart) :
    ∀ c r, exponentChars exponent = c :: r → digitValue 10 c = none ∧ c ≠ '.' := by
  intro c r h
  cases exponent with
  | none => cases h
  | some e =>
    simp only [exponentChars, List.cons.injEq] at h
    obtain ⟨hc, -⟩ := h
    subst hc
    cases e.upper <;> exact ⟨rfl, by decide⟩

theorem parseExponent_exponentChars (exponent : Option ExponentPart)
    (h : ∀ e, exponent = some e → e.digits ≠ [] ∧ ∀ d ∈ e.digits, d < 10) :
    parseExponent (exponentChars exponent) = exponentValue exponent := by
  cases exponent with
  | none => rfl
  | some e =>
    obtain ⟨hne, hd⟩ := h e rfl
    obtain ⟨d, ds, hds⟩ := List.exists_cons_of_ne_nil hne
    have hd0 : d < 10 := hd d (by simp [hds])
    have hsplit := splitSign_signed e.sign d hd0 (ds.map digitChar)
    have hspan := spanDigits_all_digits e.digits hd
    have hlead : (if e.upper = true then 'E' else 'e') = 'e' ∨
        (if e.upper = true then 'E' else 'e') = 'E' := by
      cases e.upper <;> simp
    simp only [exponentChars, parseExponent, hlead, if_true, hds, List.map_cons, hsplit]
    rw [← List.map_cons, ← hds, hspan]
    simp only [hne, if_false, exponentValue, digitsValue_eq_decimalValue]
    cases e.sign <;> simp [SignMark.factor]

theorem withSign_binary64 (sign : SignMark) (v : ℚ) (hv : 0 ≤ v) :
    withSign (decide (sign.factor = -1)) (binary64 v) = binary64 ((sign.factor : ℚ) * v) := by
  cases sign
  · simp [withSign, SignMark.factor]
  · simp [withSign, SignMark.factor]
  · simp [withSign, SignMark.factor, binary64_neg_of_nonneg v hv]

/-- On a decimal literal, `Number.parseFloat` returns the double nearest to the
number the literal denotes. -/
theorem parseFloat_decimal_literal (text : String) (q : ℚ) (hlit : IsDecimalLiteral text q) :
    parseFloat text = binary64 q := by
  obtain ⟨sign, whole, fraction, exponent, hne, hw, hf, he, rfl, rfl⟩ := hlit
  obtain ⟨d, ds, rfl⟩ := List.exists_cons_of_ne_nil hne
  have hd : d < 10 := hw d (by simp)
  have hexp := parseExponent_exponentChars exponent he
  have hhead := exponentChars_head exponent
  have hnonneg : (0 : ℚ) ≤ ((decimalValue (d :: ds) : ℚ) +
      (decimalValue fraction : ℚ) / (10 : ℚ) ^ fraction.length) *
        (10 : ℚ) ^ exponentValue exponent := by positivity
  rw [← withSign_binary64 sign _ hnonneg]
  by_cases hfrac : fraction = []
  · subst hfrac
    have hspan := spanDigits_digits (d :: ds) (exponentChars exponent) hw
      (fun c r h => (hhead c r h).1)
    have hfraction : spanFraction (exponentChars exponent) =
        ([], exponentChars exponent) := by
      cases hx : exponentChars exponent with
      | nil => rfl
      | cons c r => simp [spanFraction, (hhead c r hx).2]
    simp only [List.map_cons, List.cons_append] at hspan
    simp only [parseFloat, if_true, List.nil_append, List.map_cons, List.cons_append,
      dropWhile_signed sign d hd, splitSign_signed sign d hd, (parseFloat_start d hd _).2,
      hspan, Bool.false_eq_true, if_false, hfraction, hexp, digitsValue_eq_decimalValue]
    simp [decimalValue]
  · have hspan := spanDigits_digits (d :: ds)
      ('.' :: (fraction.map digitChar ++ exponentChars exponent)) hw
      (fun c r h => by cases h; rfl)
    have hfspan := spanDigits_digits fraction (exponentChars exponent) hf
      (fun c r h => (hhead c r h).1)
    have hfraction : spanFraction
        ('.' :: (fraction.map digitChar ++ exponentChars exponent)) =
        (fraction, exponentChars exponent) := by
      simp [spanFraction, hfspan]
    simp only [List.map_cons, List.cons_append] at hspan
    simp only [parseFloat, hfrac, if_false, List.map_cons, List.cons_append,
      dropWhile_signed sign d hd, splitSign_signed sign d hd, (parseFloat_start d hd _).2,
      hspan, Bool.false_eq_true, hfraction, hexp, digitsValue_eq_decimalValue]
    simp [hfrac]

/-- What `Number.parseFloat` and `Number.parseInt` return on sample texts. -/
theorem parse_examples :
    parseFloat "25.50" = .finite (51 / 2) ∧
    parseFloat "1e3" = .finite 1000 ∧
    parseFloat "2.5E-1" = .finite (1 / 4) ∧
    parseFloat "  -12.5abc" = .finite (-25 / 2) ∧
    parseFloat "+.5" = .finite (1 / 2) ∧
    parseFloat "5." = .finite 5 ∧
    parseFloat "7e" = .finite 7 ∧
    parseFloat "0.1" = .finite (3602879701896397 / 36028797018963968) ∧
    parseFloat "1e400" = .infinity false ∧
    parseFloat "-Infinity" = .infinity true ∧
    parseFloat "abc" = .nan ∧
    parseFloat "." = .nan ∧
    parseFloat "undefined" = .nan ∧
    parseInt "5" = .finite 5 ∧
    parseInt " 42px" = .finite 42 ∧
    parseInt "-7" = .finite (-7) ∧
    parseInt "0x1F" = .finite 31 ∧
    parseInt "1e3" = .finite 1 ∧
    parseInt "abc" = .nan ∧
    ["\t7", "\n7", "\x0b7", "\x0c7", "\r7", " 7", "\u00a07", "\u16807", "\u20007", "\u200a7",
      "\u20287", "\u20297", "\u202f7", "\u205f7", "\u30007", "\ufeff7"].map parseInt =
      List.replicate 16 (.finite 7) ∧
    ["\x087", "\x0e7", "\x1f7", "!7", "\u009f7", "\u00a17", "\u167f7", "\u16817", "\u1fff7",
      "\u200b7", "\u20277", "\u202a7", "\u202e7", "\u20307", "\u205e7", "\u20607", "\u2fff7",
      "\u30017", "\ufefe7", "\uff007"].map parseFloat = List.replicate 20 .nan := by
  decide!

/-! ### Creating listings and reviews -/

theorem stringifyElements_append (xs ys : List JSValue) :
    JSON.stringifyElements (xs ++ ys) = JSON.stringifyElements xs ++ JSON.stringifyElements ys := by
  induction xs with
  | nil => rfl
  | cons x xs ih => simp [JSON.stringifyElements, ih]

theorem parseElements_append (xs ys : List Json) :
    JSON.parseElements (xs ++ ys) = JSON.parseElements xs ++ JSON.parseElements ys := by
  induction xs with
  | nil => rfl
  | cons x xs ih => simp [JSON.parseElements, ih]

theorem stringifyElements_length (xs : List JSValue) :
    (JSON.stringifyElements xs).length = xs.length := by
  induction xs with
  | nil => rfl
  | cons x xs ih => simp [JSON.stringifyElements, ih]

theorem parseElements_length (xs : List Json) : (JSON.parseElements xs).length = xs.length := by
  induction xs with
  | nil => rfl
  | cons x xs ih => simp [JSON.parseElements, ih]

/-- C8 (as stated, refuted). The price text `0.1` is a decimal literal denoting
one tenth; the record appended for it has the price
3602879701896397 / 36028797018963968, the double nearest to one tenth, which is
not one tenth.  And for the literal made of a `1` and 309 zeros the appended
record has the price `Infinity`. -/
theorem addListing_price_counterexample :
    IsDecimalLiteral "0.1" (1 / 10) ∧
    (addListing emptyState { jacketBody with productPrice := some "0.1" } none
        calmOutside).state.listings.map Listing.price =
      [.finite (3602879701896397 / 36028797018963968)] ∧
    (3602879701896397 / 36028797018963968 : ℚ) ≠ 1 / 10 ∧
    IsDecimalLiteral hugeRating (10 ^ 309) ∧
    (addListing emptyState { jacketBody with productPrice := some hugeRating } none
        calmOutside).state.listings.map Listing.price = [.infinity false] := by
  refine ⟨⟨.absent, [0], [1], none, by simp, by decide, by decide, by simp, by decide, ?_⟩,
    by decide!, by norm_num,
    ⟨.absent, 1 :: List.replicate 309 0, [], none, List.cons_ne_nil _ _, by decide!, by simp,
      by simp, by decide!, ?_⟩, by decide!⟩
  · norm_num [SignMark.factor, decimalValue, exponentValue, Nat.ofDigits]
  · have h : decimalValue (1 :: List.replicate 309 0) = 10 ^ 309 := by decide!
    have h0 : decimalValue [] = 0 := rfl
    simp only [SignMark.factor, exponentValue, h, h0, List.length_nil, Nat.cast_pow,
      Nat.cast_ofNat, Nat.cast_zero, Int.cast_one, zero_div, add_zero, zpow_zero, mul_one, one_mul]

/-- C8 (amended). A `POST /add-listing` whose five required fields are non-empty
and which carries no uploaded image appends exactly one record at the end of
listings, the earlier records unchanged; the record has the placeholder path
`/placeholder.svg?height=200&width=200` as imageUrl, isNew true, rating 0,
reviewCount 0, name productName, seller.name sellerName, and as price
`Number.parseFloat(productPrice)`: when productPrice is a decimal literal
(optional sign, digits, optional fraction, optional exponent), the double
nearest to the number it denotes, which is that number whenever a double
represents it exactly (25.5 for `25.50`); originalPrice is null when
productOriginalPrice is absent or empty. -/
theorem addListing_without_image (st : AppState) (body : ListingBody) (out : Outside)
    (hname : truthy body.sellerName = true) (hemail : truthy body.sellerEmail = true)
    (hphone : truthy body.sellerPhone = true) (hproduct : truthy body.productName = true)
    (hprice : truthy body.productPrice = true) :
    ∃ record : Listing,
      (addListing st body none out).state.listings = st.listings ++ [record] ∧
      (addListing st body none out).state.users = st.users ∧
      (addListing st body none out).state.reviews = st.reviews ∧
      record.imageUrl = "/placeholder.svg?height=200&width=200" ∧
      record.isNew = true ∧
      record.rating = .finite 0 ∧
      record.reviewCount = .finite 0 ∧
      record.name = body.productName ∧
      record.seller.name = body.sellerName ∧
      record.price = parseFloat (fieldToString body.productPrice) ∧
      (∀ text q, body.productPrice = some text → IsDecimalLiteral text q →
        record.price = binary64 q) ∧
      (∀ text q, body.productPrice = some text → IsDecimalLiteral text q → IsDoubleValue q →
        record.price = .finite q) ∧
      (body.productPrice = some "25.50" → record.price = .finite (51 / 2)) ∧
      (truthy body.productOriginalPrice = false → record.originalPrice = none) := by
  have hguard : (!truthy body.sellerName || !truthy body.sellerEmail || !truthy body.sellerPhone
      || !truthy body.productName || !truthy body.productPrice) = false := by
    simp [hname, hemail, hphone, hproduct, hprice]
  rw [show (addListing st body none out).state = (addListingHandler st body none out).state
    from rfl]
  simp only [addListingHandler, hguard, Bool.false_eq_true, if_false]
  refine ⟨_, rfl, ?_, ?_, rfl, rfl, rfl, rfl, rfl, rfl, rfl, ?_, ?_, ?_, ?_⟩
  · trivial
  · trivial
  · intro text q htext hlit
    simp only [htext, fieldToString]
    exact parseFloat_decimal_literal text q hlit
  · intro text q htext hlit hdouble
    simp only [htext, fieldToString]
    rw [parseFloat_decimal_literal text q hlit]
    exact binary64_of_isDoubleValue q hdouble
  · intro htext
    simp only [htext, fieldToString]
    decide!
  · intro horig
    simp only [horig, Bool.false_eq_true, if_false]

theorem addListing_without_image_witness :
    ∃ record : Listing,
      (addListing emptyState jacketBody none calmOutside).state.listings =
        emptyState.listings ++ [record] ∧
      record.imageUrl = "/placeholder.svg?height=200&width=200" ∧
      record.price = .finite (51 / 2) ∧ record.isNew = true ∧ record.rating = .finite 0 := by
  obtain ⟨record, h1, _, _, h2, h3, h4, _, _, _, _, _, _, h5, _⟩ :=
    addListing_without_image emptyState jacketBody calmOutside rfl rfl rfl rfl rfl
  exact ⟨record, h1, h2, h5 rfl, h3, h4⟩

/-- C9 (as stated, refuted). The rating text made of a `1` and 309 zeros is a
decimal integer literal; the record appended for it has the rating `Infinity`,
the file written holds `null` in its place, and the record parsed back reads
`null` where the appended record reads `Infinity`.  And for the literal
`9007199254740993`, which denotes 2^53 + 1, the appended record has the rating
9007199254740992. -/
theorem submitReview_rating_counterexample :
    IsDecimalIntegerLiteral hugeRating (10 ^ 309) ∧
    (submitReview emptyState (bobReview hugeRating) calmOutside).state.reviews =
      [{ name := some "Bob", comment := some "Great", rating := .infinity false }] ∧
    (∃ text b,
      (submitReview emptyState (bobReview hugeRating) calmOutside).calls =
        [.writeFile reviewFilePath (some text)] ∧
      JSON.parse text = .array [b] ∧ b.readPath ["rating"] = .null ∧
      (Review.toJS (Review.mk (some "Bob") (some "Great") (.infinity false))).readPath
        ["rating"] = .number (.infinity false)) ∧
    IsDecimalIntegerLiteral "9007199254740993" 9007199254740993 ∧
    (submitReview emptyState (bobReview "9007199254740993") calmOutside).state.reviews =
      [{ name := some "Bob", comment := some "Great", rating := .finite 9007199254740992 }] ∧
    (9007199254740992 : ℚ) ≠ 9007199254740993 := by
  have hparse : parseInt hugeRating = .infinity false := by decide!
  have hout : submitReview emptyState (bobReview hugeRating) calmOutside =
      { state := { emptyState with reviews :=
          [{ name := some "Bob", comment := some "Great", rating := .infinity false }] }
        response := .redirect "/"
        calls := [.writeFile reviewFilePath (JSON.stringify (.array (List.map Review.toJS
          [{ name := some "Bob", comment := some "Great", rating := .infinity false }])))] } := by
    have hguard : (truthy (bobReview hugeRating).name && truthy (bobReview hugeRating).comment &&
        truthy (bobReview hugeRating).rating) = true := by decide!
    simp only [submitReview, hguard, if_true]
    simp only [bobReview, fieldToString, hparse]
    rfl
  refine ⟨⟨false, 1 :: List.replicate 309 0, List.cons_ne_nil _ _, by decide!, by decide!,
    by decide!⟩, ?_, ?_,
    ⟨false, [9, 0, 0, 7, 1, 9, 9, 2, 5, 4, 7, 4, 0, 9, 9, 3], by simp, by decide, by decide,
      by decide⟩, by decide!, by norm_num⟩
  · rw [hout]
  · rw [hout]
    exact ⟨_, _, rfl, rfl, rfl, rfl⟩

/-- C9 (amended). A `POST /submit-review` with non-empty name and comment and a
rating text that is a decimal integer literal denoting `n` appends exactly one
record `{name, comment, rating}` at the end of reviews, the earlier records
unchanged and in order, where rating is the double nearest to `n`: `n` itself
whenever a double represents `n` exactly, as it does every `n` of absolute
value up to 2^53.  Its one file call is the write of `review.json`; the written
text parses to a sequence of one record more than before, whose last record
equals the appended record whenever the rating is finite. -/
theorem submitReview_integer_rating (st : AppState) (name comment rating : String) (n : ℤ)
    (out : Outside) (hname : name ≠ "") (hcomment : comment ≠ "")
    (hlit : IsDecimalIntegerLiteral rating n) :
    (submitReview st ⟨some name, some comment, some rating⟩ out).state.reviews =
      st.reviews ++ [{ name := some name, comment := some comment, rating := binary64 n }] ∧
    (submitReview st ⟨some name, some comment, some rating⟩ out).state.users = st.users ∧
    (submitReview st ⟨some name, some comment, some rating⟩ out).state.listings = st.listings ∧
    (IsDouble n → binary64 (n : ℚ) = .finite n) ∧
    (n.natAbs ≤ 2 ^ 53 → IsDouble n) ∧
    (∃ text records,
      (submitReview st ⟨some name, some comment, some rating⟩ out).calls =
        [.writeFile reviewFilePath (some text)] ∧
      JSON.parse text = .array records ∧
      records.length = st.reviews.length + 1 ∧
      ((binary64 (n : ℚ)).isFinite = true →
        records.getLast? = some (Review.toJS
          { name := some name, comment := some comment, rating := binary64 n }))) := by
  have hrating : rating ≠ "" := by
    obtain ⟨negative, digits, hne, -, rfl, -⟩ := hlit
    obtain ⟨d, ds, rfl⟩ := List.exists_cons_of_ne_nil hne
    intro h
    have := congrArg String.data h
    cases negative <;> simp at this
  have hguard : (truthy (some name) && truthy (some comment) && truthy (some rating)) = true := by
    simp [truthy, hname, hcomment, hrating]
  have hparse := parseInt_integer_literal rating n hlit
  have hout : submitReview st ⟨some name, some comment, some rating⟩ out =
      { state := { st with reviews := st.reviews ++
          [{ name := some name, comment := some comment, rating := binary64 n }] }
        response := afterWrite out.writeError (fun _ => .send 500 "Error saving review.")
          (.redirect "/")
        calls := [.writeFile reviewFilePath (JSON.stringify (.array (List.map Review.toJS
          (st.reviews ++
            [{ name := some name, comment := some comment, rating := binary64 n }]))))] } := by
    simp only [submitReview, hguard, if_true, fieldToString, hparse]
  rw [hout]
  refine ⟨rfl, rfl, rfl, binary64_intCast n, isDouble_of_natAbs_le n, _, _, rfl, rfl, ?_, ?_⟩
  · simp [parseElements_length, stringifyElements_length]
  · intro hfin
    rw [List.map_append, stringifyElements_append, parseElements_append]
    cases hb : binary64 (n : ℚ) with
    | nan => rw [hb] at hfin; cases hfin
    | infinity s => rw [hb] at hfin; cases hfin
    | finite q =>
      simp [JSON.stringifyElements, JSON.parseElements, Review.toJS, Field.toJS, JSON.stringify,
        JSON.stringifyProperties, JSON.parse, JSON.parseMembers]

theorem submitReview_integer_rating_witness :
    (submitReview emptyState (bobReview "5") calmOutside).state.reviews =
      emptyState.reviews ++ [{ name := some "Bob", comment := some "Great", rating := .finite 5 }] := by
  have h := submitReview_integer_rating emptyState "Bob" "Great" "5" 5 calmOutside (by decide)
    (by decide) ⟨false, [5], by simp, by decide, by decide, by decide⟩
  have h5 : binary64 ((5 : ℤ) : ℚ) = .finite 5 := by
    simpa using h.2.2.2.1 (h.2.2.2.2.1 (by norm_num))
  rw [← h5]
  exact h.1

/-! ### Persist and load -/

theorem any_key_iff (k : String) (ps : List (String × JSValue)) :
    ps.any (fun p => p.1 == k) = true ↔ k ∈ ps.map Prod.fst := by
  induction ps with
  | nil => simp
  | cons p ps ih =>
    simp only [List.any_cons, Bool.or_eq_true, ih, List.map_cons, List.mem_cons, beq_iff_eq]
    constructor
    · rintro (h | h)
      · exact Or.inl h.symm
      · exact Or.inr h
    · rintro (h | h)
      · exact Or.inl h.symm
      · exact Or.inr h

theorem lookupProperty_of_not_mem (k : String) (ps : List (String × JSValue))
    (h : k ∉ ps.map Prod.fst) : lookupProperty k ps = .undefined := by
  induction ps with
  | nil => rfl
  | cons p ps ih =>
    obtain ⟨k', v⟩ := p
    simp only [List.map_cons, List.mem_cons, not_or] at h
    have hany : ps.any (fun p => p.1 == k) = false := by
      rw [← Bool.not_eq_true, any_key_iff]
      exact h.2
    have hne : ¬ k' = k := fun heq => h.1 heq.symm
    simp [lookupProperty, hany, hne]

theorem mem_keys_reloaded (k : String) (ps : List (String × JSValue))
    (h : k ∈ (JSON.parseMembers (JSON.stringifyProperties ps)).map Prod.fst) :
    k ∈ ps.map Prod.fst := by
  induction ps with
  | nil => simp [JSON.stringifyProperties, JSON.parseMembers] at h
  | cons p ps ih =>
    obtain ⟨k', v⟩ := p
    simp only [JSON.stringifyProperties] at h
    cases hs : JSON.stringify v with
    | none =>
      rw [hs] at h
      exact List.mem_cons_of_mem _ (ih h)
    | some j =>
      rw [hs] at h
      simp only [JSON.parseMembers, List.map_cons, List.mem_cons] at h
      rcases h with h | h
      · simp [h]
      · exact List.mem_cons_of_mem _ (ih h)

/-- Reading a property of a reloaded object gives the reloaded value of that
property of the original. -/
theorem lookupProperty_reloaded (k : String) (ps : List (String × JSValue))
    (hnodup : (ps.map Prod.fst).Nodup) :
    lookupProperty k (JSON.parseMembers (JSON.stringifyProperties ps)) =
      reload (lookupProperty k ps) := by
  induction ps with
  | nil => rfl
  | cons p ps ih =>
    obtain ⟨k', v⟩ := p
    simp only [List.map_cons, List.nodup_cons] at hnodup
    have ih' := ih hnodup.2
    by_cases hmem : k ∈ ps.map Prod.fst
    · have hne : ¬ k' = k := fun heq => hnodup.1 (heq ▸ hmem)
      have hany : ps.any (fun p => p.1 == k) = true := (any_key_iff k ps).mpr hmem
      have horig : lookupProperty k ((k', v) :: ps) = lookupProperty k ps := by
        simp [lookupProperty, hany]
      rw [horig, ← ih']
      simp only [JSON.stringifyProperties]
      cases hs : JSON.stringify v with
      | none => rfl
      | some j =>
        simp only [JSON.parseMembers]
        by_cases hany' : (JSON.parseMembers (JSON.stringifyProperties ps)).any
            (fun p => p.1 == k) = true
        · simp [lookupProperty, hany']
        · have hnot : k ∉ (JSON.parseMembers (JSON.stringifyProperties ps)).map Prod.fst :=
            fun hk => hany' ((any_key_iff k _).mpr hk)
          rw [lookupProperty_of_not_mem k _ hnot]
          simp [lookupProperty, hany', hne]
    · have hany : ps.any (fun p => p.1 == k) = false := by
        rw [← Bool.not_eq_true, any_key_iff]
        exact hmem
      have hnot : k ∉ (JSON.parseMembers (JSON.stringifyProperties ps)).map Prod.fst :=
        fun hk => hmem (mem_keys_reloaded k ps hk)
      have hany' : (JSON.parseMembers (JSON.stringifyProperties ps)).any
          (fun p => p.1 == k) = false := by
        rw [← Bool.not_eq_true, any_key_iff]
        exact hnot
      have horig : lookupProperty k ((k', v) :: ps) = if k' = k then v else .undefined := by
        simp [lookupProperty, hany]
      rw [horig]
      simp only [JSON.stringifyProperties]
      cases hs : JSON.stringify v with
      | none =>
        simp only []
        rw [lookupProperty_of_not_mem k _ hnot]
        by_cases hk : k' = k
        · simp [hk, reload, hs]
        · simp [hk, reload, JSON.stringify]
      | some j =>
        simp only [JSON.parseMembers, lookupProperty, hany', Bool.false_eq_true, if_false]
        by_cases hk : k' = k
        · simp [hk, reload, hs]
        · simp [hk, reload, JSON.stringify]

theorem get_reload_object (ps : List (String × JSValue)) (k : String)
    (hnodup : (ps.map Prod.fst).Nodup) :
    (reload (.object ps)).get k = reload ((JSValue.object ps).get k) := by
  simp only [reload, JSON.stringify, JSON.parse, JSValue.get]
  exact lookupProperty_reloaded k ps hnodup

theorem reload_field (f : Field) : reload f.toJS = f.toJS := by
  cases f <;> rfl

theorem reload_string (s : String) : reload (.string s) = .string s := rfl

theorem reload_bool (b : Bool) : reload (.bool b) = .bool b := rfl

theorem reload_number (n : JSNumber) (h : n.isFinite = true) : reload (.number n) = .number n := by
  cases n with
  | nan => cases h
  | infinity s => cases h
  | finite q => rfl

theorem reload_nonfinite (n : JSNumber) (h : n.isFinite = false) :
    reload (.number n) = .null := by
  cases n with
  | nan => rfl
  | infinity s => rfl
  | finite q => cases h

theorem reload_array (items : List JSValue) (h : ∀ v ∈ items, ∃ ps, v = .object ps) :
    reload (.array items) = .array (items.map reload) := by
  simp only [reload, JSON.stringify, JSON.parse]
  congr 1
  induction items with
  | nil => rfl
  | cons v vs ih =>
    obtain ⟨ps, rfl⟩ := h _ (List.mem_cons_self _ _)
    simp only [JSON.stringifyElements, JSON.stringify, JSON.parseElements, List.map_cons, reload]
    rw [ih (fun w hw => h w (List.mem_cons_of_mem _ hw))]

theorem sameRecords_of_records (fields : List (List String)) (items : List JSValue)
    (hobj : ∀ v ∈ items, ∃ ps, v = .object ps)
    (hsame : ∀ v ∈ items, ∀ path ∈ fields, (reload v).readPath path = v.readPath path) :
    SameRecords fields (.array items) (reload (.array items)) := by
  refine ⟨items, items.map reload, rfl, reload_array items hobj, ?_⟩
  rw [List.forall₂_map_right_iff]
  exact List.forall₂_same.mpr hsame

theorem reload_user (u : User) : reload u.toJS = u.toJS := rfl

theorem get_reload_review (r : Review) (k : String) :
    (reload r.toJS).get k = reload (r.toJS.get k) :=
  get_reload_object _ k (by simp)

theorem get_reload_seller (s : Seller) (k : String) :
    (reload s.toJS).get k = reload (s.toJS.get k) :=
  get_reload_object _ k (by simp)

theorem get_reload_listing (l : Listing) (k : String) :
    (reload l.toJS).get k = reload (l.toJS.get k) :=
  get_reload_object _ k (by simp)

theorem reload_review_fields (r : Review) (hfin : r.rating.isFinite = true) :
    ∀ path ∈ reviewFields, (reload r.toJS).readPath path = r.toJS.readPath path := by
  intro path hpath
  simp only [reviewFields, List.mem_cons, List.mem_singleton, List.not_mem_nil, or_false] at hpath
  rcases hpath with rfl | rfl | rfl <;>
    simp only [JSValue.readPath, get_reload_review] <;>
    simp [Review.toJS, JSValue.get, lookupProperty, reload_field, reload_number, hfin]

theorem reload_listing_fields (l : Listing) (hfin : l.numbersFinite = true) :
    ∀ path ∈ listingFields, (reload l.toJS).readPath path = l.toJS.readPath path := by
  intro path hpath
  simp only [Listing.numbersFinite, Bool.and_eq_true] at hfin
  obtain ⟨⟨⟨hprice, horiginal⟩, hrating⟩, hcount⟩ := hfin
  have horiginal' : reload (match l.originalPrice with
      | some n => JSValue.number n
      | none => JSValue.null) =
      (match l.originalPrice with
      | some n => JSValue.number n
      | none => JSValue.null) := by
    cases ho : l.originalPrice with
    | none => rfl
    | some n =>
      rw [ho] at horiginal
      exact reload_number n horiginal
  have hseller : l.toJS.get "seller" = l.seller.toJS := by
    simp [Listing.toJS, JSValue.get, lookupProperty]
  simp only [listingFields, List.mem_cons, List.mem_singleton, List.not_mem_nil, or_false] at hpath
  rcases hpath with rfl | rfl | rfl | rfl | rfl | rfl | rfl | rfl | rfl | rfl | rfl | rfl | rfl |
      rfl | rfl | rfl | rfl | rfl | rfl | rfl <;>
    simp only [JSValue.readPath, get_reload_listing, hseller, get_reload_seller] <;>
    simp [Listing.toJS, Seller.toJS, JSValue.get, lookupProperty, reload_field, reload_number,
      reload_string, reload_bool, horiginal', hprice, hrating, hcount]

/-- C4 (as stated, refuted). The listing that `/add-listing` builds from the
price text `abc` has the price `NaN`; the write stores `null` for it, so the
reloaded record reads `null` where the original reads `NaN`, and the reloaded
sequence is not field for field the original. -/
theorem reload_nan_price_counterexample :
    ∃ a b, listingsValue pricelessListings = .array [a] ∧
      reload (listingsValue pricelessListings) = .array [b] ∧
      a.readPath ["price"] = .number .nan ∧
      b.readPath ["price"] = .null ∧
      ¬ SameRecords listingFields (listingsValue pricelessListings)
        (reload (listingsValue pricelessListings)) := by
  refine ⟨_, _, rfl, rfl, rfl, rfl, ?_⟩
  rintro ⟨as, bs, h1, h2, hall⟩
  have h1' : listingsValue pricelessListings = .array [(pricelessListings.map Listing.toJS).headD .undefined] :=
    rfl
  have h2' : reload (listingsValue pricelessListings) =
      .array [reload ((pricelessListings.map Listing.toJS).headD .undefined)] := rfl
  rw [h1'] at h1
  rw [h2'] at h2
  cases h1
  cases h2
  rw [List.forall₂_cons] at hall
  have hprice := hall.1 ["price"] (by simp [listingFields])
  have hb : (reload ((pricelessListings.map Listing.toJS).headD .undefined)).readPath ["price"] = .null := rfl
  have ha : ((pricelessListings.map Listing.toJS).headD .undefined).readPath ["price"] = .number .nan := rfl
  rw [ha, hb] at hprice
  cases hprice

/-- C4 (amended). Writing a collection with `JSON.stringify(items, null, 2)` and
parsing the text back yields a sequence of the same length whose records read,
field for field and in the same order, as the originals: for every users
collection, for every reviews collection whose ratings are finite numbers, and
for every listings collection whose price, rating and reviewCount are finite
numbers and whose originalPrice is a finite number or null.  A rating, price or
originalPrice that is `NaN` or an infinity reads `null` in the record parsed
back. -/
theorem reload_same_records :
    (∀ users : List User,
      SameRecords userFields (usersValue users) (reload (usersValue users))) ∧
    (∀ reviews : List Review, (∀ r ∈ reviews, r.rating.isFinite = true) →
      SameRecords reviewFields (reviewsValue reviews) (reload (reviewsValue reviews))) ∧
    (∀ listings : List Listing, (∀ l ∈ listings, l.numbersFinite = true) →
      SameRecords listingFields (listingsValue listings) (reload (listingsValue listings))) ∧
    (∀ r : Review, r.rating.isFinite = false →
      (reload r.toJS).readPath ["rating"] = .null) ∧
    (∀ l : Listing, l.price.isFinite = false →
      (reload l.toJS).readPath ["price"] = .null) ∧
    (∀ (l : Listing) (n : JSNumber), l.originalPrice = some n → n.isFinite = false →
      (reload l.toJS).readPath ["originalPrice"] = .null) := by
  refine ⟨?_, ?_, ?_, ?_, ?_, ?_⟩
  rotate_left 3
  · intro r hr
    simp only [JSValue.readPath, get_reload_review]
    have hget : r.toJS.get "rating" = .number r.rating := by
      simp [Review.toJS, JSValue.get, lookupProperty]
    rw [hget]
    exact reload_nonfinite r.rating hr
  · intro l hl
    simp only [JSValue.readPath, get_reload_listing]
    have hget : l.toJS.get "price" = .number l.price := by
      simp [Listing.toJS, JSValue.get, lookupProperty]
    rw [hget]
    exact reload_nonfinite l.price hl
  · intro l n hn hfin
    simp only [JSValue.readPath, get_reload_listing]
    have hget : l.toJS.get "originalPrice" = .number n := by
      simp [Listing.toJS, JSValue.get, lookupProperty, hn]
    rw [hget]
    exact reload_nonfinite n hfin
  · intro users
    apply sameRecords_of_records
    · intro v hv
      obtain ⟨u, -, rfl⟩ := List.mem_map.mp hv
      exact ⟨_, rfl⟩
    · intro v hv path _
      obtain ⟨u, -, rfl⟩ := List.mem_map.mp hv
      rw [reload_user]
  · intro reviews hfin
    apply sameRecords_of_records
    · intro v hv
      obtain ⟨r, -, rfl⟩ := List.mem_map.mp hv
      exact ⟨_, rfl⟩
    · intro v hv
      obtain ⟨r, hr, rfl⟩ := List.mem_map.mp hv
      exact reload_review_fields r (hfin r hr)
  · intro listings hfin
    apply sameRecords_of_records
    · intro v hv
      obtain ⟨l, -, rfl⟩ := List.mem_map.mp hv
      exact ⟨_, rfl⟩
    · intro v hv
      obtain ⟨l, hl, rfl⟩ := List.mem_map.mp hv
      exact reload_listing_fields l (hfin l hl)

theorem reload_same_records_witness :
    SameRecords listingFields (listingsValue sampleState.listings)
        (reload (listingsValue sampleState.listings)) ∧
    SameRecords reviewFields (reviewsValue sampleState.reviews)
        (reload (reviewsValue sampleState.reviews)) :=
  ⟨reload_same_records.2.2.1 sampleState.listings (by decide!),
    reload_same_records.2.1 sampleState.reviews (by decide!)⟩

end Marketplace
